import Mathlib

/-!
Verification of the agent orchestration core of the personal-notes-assistant
repository (`backend/app/core/services/agent_service.py`).

The embedding is shallow: the stateful generator `AgentService.chat_stream` is
translated into a pure function from an *environment* (the behaviour of the
model endpoint, of the streaming channel, and of the note/search/embedding
collaborators at each interaction point) to the list of emitted events plus the
final loop state.  Python `dict` tool-argument maps are modelled by a record of
the optional keys that the dispatcher actually reads (unknown keys are dropped
by the source, so they are unrepresented here); JSON numbers are modelled by
`Int`/`ℚ`; Python exceptions are modelled by `Except String`.

Conventions:
* Python truthiness of `x or d` is modelled by the `pyOr*` helpers
  (`None`, `""`, `0`, `[]` are falsy).
* `collected_source_ids : set[str]` is modelled as a `List String` with
  set-semantics insertion (`setInsert`); Python's `sorted(...)` on it is
  modelled by the structural insertion sort `sortList`.
* Ghost fields used only to *observe* the run (`searchLog`, `createLog`,
  `loopCreates`, `streamCount`, `toolCount`) record, respectively, the ids
  returned by each successful search-collaborator call, the input payloads of
  each non-streaming model call, and counts of interaction points.  They do not
  influence any emitted event.
-/

namespace NotesAgent

/-- Python `v or d` for an optional string argument: `None` and `""` are falsy. -/
def pyOrStr (v : Option String) (d : String) : String :=
  match v with
  | none => d
  | some s => if s = "" then d else s

/-- Python `a or b` where both sides are optional strings (used for
`rid or previous_response_id`). -/
def pyOrOptStr (a b : Option String) : Option String :=
  match a with
  | none => b
  | some s => if s = "" then b else some s

/-- Python `v or d` for an optional integer: `None` and `0` are falsy.
Used for `int(limit or 20)` in `_tool_search_notes`. -/
def pyOrInt (v : Option Int) (d : Int) : Int :=
  match v with
  | none => d
  | some n => if n = 0 then d else n

/-- Python `query or None`: an empty string is normalized to `None`
(line `query=query or None` of `_tool_search_notes`). -/
def pyStrOrNone (v : Option String) : Option String :=
  match v with
  | none => none
  | some s => if s = "" then none else some s

/-- Python `tags or None`: an empty list is normalized to `None`. -/
def pyListOrNone (v : Option (List String)) : Option (List String) :=
  match v with
  | none => none
  | some l => if l = [] then none else some l

/-- Insertion into the model of a Python `set[str]` (membership semantics;
insertion order of the underlying list is irrelevant to every claim). -/
def setInsert (x : String) (s : List String) : List String :=
  if x ∈ s then s else s ++ [x]

/-- Insert a string into an already sorted list, keeping it sorted.
Building block of the model of Python `sorted(...)`. -/
def insertSorted (x : String) : List String → List String
  | [] => [x]
  | y :: ys => if x ≤ y then x :: y :: ys else y :: insertSorted x ys

/-- Model of Python `sorted(...)` on a `set[str]` (code points compare
lexicographically, matching Lean's `String` order). -/
def sortList : List String → List String
  | [] => []
  | x :: xs => insertSorted x (sortList xs)

/-- From `AgentService._parse_iso_datetime`: permissive ISO-8601 parsing.
`None`/`""` yield `None`; otherwise the value is stripped and a trailing `"Z"`
is rewritten to `"+00:00"`.  The call to `datetime.fromisoformat` is abstracted
by keeping the normalized string: the source wraps the whole body in
`try/except` and returns `None` on any failure, so the function is total and
never raises — which is the only fact any claim depends on. -/
def parseIsoDatetime (value : Option String) : Option String :=
  match value with
  | none => none
  | some v0 =>
    if v0 = "" then none
    else
      let v1 := v0.trim
      let v2 := if v1.endsWith "Z" then v1.dropRight 1 ++ "+00:00" else v1
      some v2

/-- The valid `NoteType` enum values (`app/core/models/note.py`). -/
def noteTypes : List String := ["note", "task", "event", "recipe", "vocabulary"]

/-- Python `NoteType(note_type) if note_type else None`: a falsy value yields
`None`; an invalid enum string raises `ValueError`. -/
def noteTypeValOpt (v : Option String) : Except String (Option String) :=
  match v with
  | none => Except.ok none
  | some s =>
    if s = "" then Except.ok none
    else if s ∈ noteTypes then Except.ok (some s)
    else Except.error ("ValueError: '" ++ s ++ "' is not a valid NoteType")

/-- The tool argument map, as read by `AgentService._dispatch_tool`:
each tool reads only an allow-listed subset of keys via `args.get(k)`, and all
other keys of the raw JSON map are silently dropped — hence only the readable
keys appear here, each `Option`-valued (`args.get` yields `None` for a missing
or null key).  Values are assumed schema-typed (the tool declarations are
`strict`). -/
structure ToolArgs where
  query : Option String := none
  tags : Option (List String) := none
  match_all_tags : Option Bool := none
  note_type : Option String := none
  is_archived : Option Bool := none
  limit : Option Int := none
  alpha : Option ℚ := none
  created_from : Option String := none
  created_to : Option String := none
  updated_from : Option String := none
  updated_to : Option String := none
  title : Option String := none
  content : Option String := none
  id : Option String := none
deriving DecidableEq, Repr

/-- The empty argument map `{}` (also what malformed JSON degrades to). -/
def ToolArgs.empty : ToolArgs := {}

/-- Effective search limit, from `_tool_search_notes`:
`limit_val = max(1, min(int(limit or 20), 200))`.  Note that `0` is falsy in
Python, so a zero limit takes the default `20`, not the lower clamp `1`. -/
def limitVal (limit : Option Int) : Int :=
  max 1 (min (pyOrInt limit 20) 200)

/-- Effective tag-match mode, from `_tool_search_notes`:
`bool(match_all_tags) if match_all_tags is not None else False`. -/
def matchAllVal (v : Option Bool) : Bool :=
  v.getD false

/-- Effective hybrid-search weighting, from `_tool_search_notes`:
`alpha_val = float(alpha) if alpha is not None else 0.5` — no clamping. -/
def alphaVal (v : Option ℚ) : ℚ :=
  v.getD (1 / 2)

/-- The `AgentSearchRequest` DTO (`app/core/schemas/note_search.py`), with the
fields the agent fills in.  Datetime fields keep the normalized strings (see
`parseIsoDatetime`). -/
structure AgentSearchRequest where
  query : Option String
  tags : Option (List String)
  match_all_tags : Bool
  note_type : Option String
  is_archived : Option Bool
  limit : Int
  alpha : ℚ
  created_from : Option String
  created_to : Option String
  updated_from : Option String
  updated_to : Option String
deriving DecidableEq, Repr

/-- Pydantic construction of `AgentSearchRequest`: the field constraints
`limit: ge=1, le=200` and `alpha: ge=0, le=1` are validated and a violation
raises a `ValidationError` (pydantic validates, it does not clamp). -/
def mkAgentSearchRequest (query : Option String) (tags : Option (List String))
    (match_all_tags : Bool) (note_type : Option String) (is_archived : Option Bool)
    (limit : Int) (alpha : ℚ) (created_from created_to updated_from updated_to : Option String) :
    Except String AgentSearchRequest :=
  if ¬ (1 ≤ limit ∧ limit ≤ 200) then
    Except.error "ValidationError: AgentSearchRequest.limit out of range"
  else if ¬ (0 ≤ alpha ∧ alpha ≤ 1) then
    Except.error "ValidationError: AgentSearchRequest.alpha out of range"
  else
    Except.ok
      { query := query, tags := tags, match_all_tags := match_all_tags
        note_type := note_type, is_archived := is_archived
        limit := limit, alpha := alpha
        created_from := created_from, created_to := created_to
        updated_from := updated_from, updated_to := updated_to }

/-- The `AgentSearchRequest` that `_tool_search_notes` builds from its raw
arguments (exactly the argument normalization on lines 299–322 of the source,
including the `NoteType(...)` conversion which may raise before pydantic
validation runs). -/
def searchRequestOf (a : ToolArgs) : Except String AgentSearchRequest := do
  let nt ← noteTypeValOpt a.note_type
  mkAgentSearchRequest (pyStrOrNone a.query) (pyListOrNone a.tags)
    (matchAllVal a.match_all_tags) nt a.is_archived
    (limitVal a.limit) (alphaVal a.alpha)
    (parseIsoDatetime a.created_from) (parseIsoDatetime a.created_to)
    (parseIsoDatetime a.updated_from) (parseIsoDatetime a.updated_to)

/-- Behaviour of the external collaborators for one dispatched tool call.
`Except.error` models the collaborator raising an exception.
* `embed`: the embedding collaborator (`create_embedding`); its result value is
  irrelevant to every claim, only raise-vs-ok matters, and the source catches a
  raise and proceeds with lexical-only search.
* `searchRes`: `search_service.search_notes_agent` — the ids (`str(r.id)`) of
  the returned notes, in rank order.
* `createRes`: `note_service.create_note` (including `AgentNoteCreate`
  validation, which can also raise) — the created note id on success.
* `updateRes`: `note_service.update_note` — `none` models a not-found result.
* `deleteRes`: `note_service.delete_note`. -/
structure ToolExec where
  embed : Except String Unit := Except.ok ()
  searchRes : Except String (List String) := Except.ok []
  createRes : Except String String := Except.ok ""
  updateRes : Except String (Option String) := Except.ok none
  deleteRes : Except String Bool := Except.ok true

/-- Structured value returned by a tool, as serialized into the
`function_call_output` payload:
* `errorResult msg` is the `{"error": msg}` shape;
* `searchResult ids` is the `{"results": [...]}` shape, keeping the note ids;
* `statusResult s i` is the `{"status": s, "id": i}` shape. -/
inductive ToolResult where
  | errorResult (msg : String)
  | searchResult (ids : List String)
  | statusResult (status : String) (id : Option String)
deriving DecidableEq, Repr

/-- The source-id accumulator: `sources` models the Python
`collect_source_ids : set[str]`; `searchLog` is ghost bookkeeping recording the
ids returned by each successful search-collaborator call (used to state the
superset claim, it affects nothing). -/
structure SourceAcc where
  sources : List String
  searchLog : List (List String)
deriving DecidableEq, Repr

/-- The empty accumulator at the start of an invocation. -/
def SourceAcc.empty : SourceAcc := ⟨[], []⟩

/-- `AgentService._tool_search_notes`: attempt an embedding (a failure is
caught inside and degrades to lexical search), normalize the arguments, build
the request (which may raise), call the search collaborator (which may raise),
then add every result id to the shared source set and return the results
payload. -/
def toolSearchNotes (a : ToolArgs) (te : ToolExec) (acc : SourceAcc) :
    Except String (ToolResult × SourceAcc) := do
  let _embedding : Option Unit :=
    match te.embed with
    | Except.ok u => some u
    | Except.error _ => none
  let _req ← searchRequestOf a
  let ids ← te.searchRes
  Except.ok (ToolResult.searchResult ids,
    ⟨ids.foldl (fun s i => setInsert i s) acc.sources, acc.searchLog ++ [ids]⟩)

/-- `AgentService._tool_create_note`: convert the note type (default `NOTE`;
an invalid value raises), then delegate to the note service (`AgentNoteCreate`
validation failures are subsumed in the collaborator outcome).  The
fire-and-forget enrichment tasks have no effect on the result. -/
def toolCreateNote (note_type : Option String) (te : ToolExec) :
    Except String ToolResult := do
  let _nt ← noteTypeValOpt note_type
  let cid ← te.createRes
  Except.ok (ToolResult.statusResult "success" (some cid))

/-- `AgentService._tool_update_note`: convert the note type, delegate to the
note service; a `None` result is reported as `not_found`. -/
def toolUpdateNote (note_type : Option String) (te : ToolExec) :
    Except String ToolResult := do
  let _nt ← noteTypeValOpt note_type
  let r ← te.updateRes
  match r with
  | none => Except.ok (ToolResult.statusResult "not_found" none)
  | some uid => Except.ok (ToolResult.statusResult "success" (some uid))

/-- `AgentService._tool_delete_note`: delegate and report
`success`/`not_found`; the service call itself may raise. -/
def toolDeleteNote (te : ToolExec) : Except String ToolResult := do
  let ok ← te.deleteRes
  Except.ok (ToolResult.statusResult (if ok then "success" else "not_found") none)

/-- `AgentService._dispatch_tool`: select the tool by name (each branch reads
only its allow-listed keys of the argument map — modelled by the per-branch
field projections), or return the structured unknown-tool error.  Collaborator
exceptions propagate out of this function, exactly as in the source. -/
def dispatchTool (name : String) (args : ToolArgs) (te : ToolExec) (acc : SourceAcc) :
    Except String (ToolResult × SourceAcc) :=
  if name = "search_notes" then
    toolSearchNotes args te acc
  else if name = "create_note" then do
    let r ← toolCreateNote args.note_type te
    Except.ok (r, acc)
  else if name = "update_note" then do
    let r ← toolUpdateNote args.note_type te
    Except.ok (r, acc)
  else if name = "delete_note" then do
    let r ← toolDeleteNote te
    Except.ok (r, acc)
  else
    Except.ok (ToolResult.errorResult ("Unknown tool: " ++ name), acc)

/-- The `try/except` wrapper around `_dispatch_tool` in the `chat_stream` tool
loop (lines 699–708): any exception becomes the structured
`{"error": str(err)}` result and the accumulator is left as it was. -/
def dispatchCaught (name : String) (args : ToolArgs) (te : ToolExec) (acc : SourceAcc) :
    ToolResult × SourceAcc :=
  match dispatchTool name args te acc with
  | Except.ok p => p
  | Except.error e => (ToolResult.errorResult e, acc)

/-- Outcome of parsing a tool call's raw `arguments` JSON string:
`parses a` models `json.loads` succeeding with the map `a` (an absent raw
string defaults to `"{}"`, i.e. `parses ToolArgs.empty`); `malformed` models
`json.loads` raising, which the loop degrades to an empty map. -/
inductive RawArguments where
  | parses (args : ToolArgs)
  | malformed
deriving DecidableEq, Repr

/-- A pending `function_call` item of a model response: name, raw arguments
and opaque call id, each possibly absent. -/
structure ToolCallItem where
  name : Option String
  arguments : RawArguments
  call_id : Option String
deriving DecidableEq, Repr

/-- The argument map the loop passes to the dispatcher:
`args = json.loads(raw) `, degraded to `{}` on a parse failure. -/
def ToolCallItem.parsedArgs (tc : ToolCallItem) : ToolArgs :=
  match tc.arguments with
  | RawArguments.parses a => a
  | RawArguments.malformed => ToolArgs.empty

/-- An item of `response.output`: either a pending function call, or any other
item (whose `getattr(item, "text", "")` is kept, for the defensive fallback
text extraction). -/
inductive OutputItem where
  | functionCall (tc : ToolCallItem)
  | message (text : String)
deriving DecidableEq, Repr

/-- `getattr(item, "text", "")` as used by the fallback text extraction:
function-call items carry no `text` attribute. -/
def itemText : OutputItem → String
  | OutputItem.functionCall _ => ""
  | OutputItem.message t => t

/-- A non-streaming model response (`responses.create`): its `id`, its
`output` items and its `output_text` convenience field. -/
structure ModelResponse where
  id : Option String := none
  output : List OutputItem := []
  output_text : Option String := none
deriving DecidableEq, Repr

/-- The pending tool calls of a response: the items whose `type` is
`"function_call"` (line 593 of the source). -/
def pendingToolCalls (output : List OutputItem) : List ToolCallItem :=
  output.filterMap fun it =>
    match it with
    | OutputItem.functionCall tc => some tc
    | OutputItem.message _ => none

/-- One event delivered by the streaming channel.  `otherEvent` stands for any
event type the source does not inspect. -/
inductive StreamEvent where
  | outputTextDelta (delta : Option String)
  | responseError (msg : Option String)
  | responseCompleted (rid : Option String)
  | otherEvent
deriving DecidableEq, Repr

/-- One streaming session: the events it delivers in order, and
`raisesAfter = some e` when iteration raises an exception after those events
(a failure to open the channel at all is `events = []` with a raise).
Events after a `responseCompleted` are never consumed: the source returns from
inside the loop at that point. -/
structure StreamSession where
  events : List StreamEvent
  raisesAfter : Option String := none

/-- The events emitted by `chat_stream`, exactly the dict shapes of the
source. -/
inductive Event where
  | tool_call (name : String) (args : ToolArgs) (call_id : Option String)
  | tool_result (name : String) (call_id : Option String)
  | final_start
  | final_delta (delta : String)
  | final_done (sources : List String) (response_id : Option String)
  | final (response : String) (sources : List String) (response_id : Option String)
  | error (message : String)
deriving DecidableEq, Repr

/-- The error message of a failed `responses.create` in the turn loop, and the
fixed apology (`fail_safe`) substituted when no text can be produced — the
source uses the same literal for both. -/
def failSafe : String := "I'm unable to complete that request right now. Please try again."

/-- The terminal error message when even the non-streamed fallback fails. -/
def fallbackFailMsg : String := "We couldn't complete the request. Please try again."

/-- Default message of a mid-stream `response.error` event with falsy payload. -/
def streamingFailedMsg : String := "Streaming failed."

/-- An input item of the next model turn: the seed user message or a
`function_call_output` (whose `output` field is the serialized tool result). -/
inductive InputItem where
  | userMessage (content : String)
  | functionCallOutput (call_id : Option String) (output : ToolResult)
deriving DecidableEq, Repr

/-- The whole environment of one `chat_stream` invocation:
`create n` is the outcome of the `n`-th non-streaming `responses.create` call
(turn-loop calls and non-streamed fallback calls, in call order); `stream n`
the `n`-th streaming session opened; `toolExec n` the collaborator behaviour
of the `n`-th dispatched tool call. -/
structure Env where
  create : Nat → Except String ModelResponse
  stream : Nat → StreamSession
  toolExec : Nat → ToolExec

/-- The mutable state of one `chat_stream` invocation.  `prev`, `nextInputs`
and `acc.sources` are the source's `previous_response_id`, `next_inputs` and
`collected_source_ids`; the remaining fields are ghost observation counters
(see the file header). -/
structure AgentState where
  prev : Option String
  nextInputs : List InputItem
  acc : SourceAcc
  createLog : List (List InputItem)
  streamCount : Nat
  toolCount : Nat
  loopCreates : Nat
deriving Repr

/-- Result of consuming a stream's event list: `completed evs rid` when a
`response.completed` event is reached (with the events emitted before it),
`exhausted evs` when the list ends without one. -/
inductive StreamOutcome where
  | completed (events : List Event) (rid : Option String)
  | exhausted (events : List Event)
deriving DecidableEq, Repr

/-- Prepend already-emitted events to a stream outcome. -/
def StreamOutcome.push (pre : List Event) : StreamOutcome → StreamOutcome
  | StreamOutcome.completed evs rid => StreamOutcome.completed (pre ++ evs) rid
  | StreamOutcome.exhausted evs => StreamOutcome.exhausted (pre ++ evs)

/-- Consume the events of one streaming session, as the `async for` bodies on
lines 615–646 (no-tool-calls finalizer, `handleErr = true`) and 766–789
(budget finalizer, `handleErr = false`, which has no `response.error` branch)
do: a truthy delta emits `final_delta`; a `response.error` (when handled)
emits a non-returning `error` event; a `response.completed` stops consumption;
anything else is ignored. -/
def runStreamEvents (handleErr : Bool) : List StreamEvent → StreamOutcome
  | [] => StreamOutcome.exhausted []
  | se :: rest =>
    match se with
    | StreamEvent.outputTextDelta d =>
      match d with
      | none => runStreamEvents handleErr rest
      | some s =>
        if s = "" then runStreamEvents handleErr rest
        else StreamOutcome.push [Event.final_delta s] (runStreamEvents handleErr rest)
    | StreamEvent.responseError m =>
      if handleErr then
        StreamOutcome.push [Event.error (pyOrStr m streamingFailedMsg)]
          (runStreamEvents handleErr rest)
      else runStreamEvents handleErr rest
    | StreamEvent.responseCompleted rid => StreamOutcome.completed [] rid
    | StreamEvent.otherEvent => runStreamEvents handleErr rest

/-- The fallback text selection of lines 651–662: `output_text` if truthy,
else the concatenation of the output items' `text` attributes, else the fixed
apology. -/
def fallbackText (resp : ModelResponse) : String :=
  let t0 := resp.output_text.getD ""
  let t1 := if t0 = "" then String.join (resp.output.map itemText) else t0
  if t1 = "" then failSafe else t1

/-- Result of the no-tool-calls finalizer: `done evs` when the generator
returns after emitting `evs`, `fallthrough evs` when the streaming channel was
exhausted without a completion event and without raising, so control falls out
of the `if not pending_tool_calls` block and the turn loop continues. -/
inductive FinalizeResult where
  | done (events : List Event)
  | fallthrough (events : List Event)
deriving DecidableEq, Repr

/-- The no-tool-calls Streaming Finalizer (lines 595–675), entered after
`final_start` has been emitted.  On a `response.completed` it emits
`final_done` with the sorted source set; if the stream raises it attempts one
non-streamed `responses.create` with the same request, substituting the
apology when that yields no text, and emits a single `final`; if even the
fallback raises it emits a terminal `error`.  If the stream is exhausted with
no completion and no raise, control falls through into the (empty) tool
section and the loop continues. -/
def finalizeStream (env : Env) (message : String) (st : AgentState) :
    FinalizeResult × AgentState :=
  let inputs := if st.nextInputs.isEmpty then [InputItem.userMessage message] else st.nextInputs
  let session := env.stream st.streamCount
  let st1 := { st with streamCount := st.streamCount + 1 }
  match runStreamEvents true session.events with
  | StreamOutcome.completed evs rid =>
    let prevNew := pyOrOptStr rid st1.prev
    (FinalizeResult.done
        (evs ++ [Event.final_done (sortList st1.acc.sources) prevNew]),
      { st1 with prev := prevNew })
  | StreamOutcome.exhausted evs =>
    match session.raisesAfter with
    | none => (FinalizeResult.fallthrough evs, st1)
    | some _ =>
      let st2 := { st1 with createLog := st1.createLog ++ [inputs] }
      match env.create st1.createLog.length with
      | Except.ok resp =>
        let prevNew := pyOrOptStr resp.id st2.prev
        (FinalizeResult.done
            (evs ++ [Event.final (fallbackText resp) (sortList st2.acc.sources) prevNew]),
          { st2 with prev := prevNew })
      | Except.error _ =>
        (FinalizeResult.done (evs ++ [Event.error fallbackFailMsg]), st2)

/-- The budget-exceeded finalizer (lines 752–793): emits `final_start`, opens
a stream, and on completion emits `final_done`; if the stream raises it emits
a single `final` with the fixed apology directly — no non-streamed fallback
call is made on this path, and no `error` event can arise from it.  If the
stream is exhausted with no completion and no raise the generator returns with
no terminal event at all (line 793). -/
def budgetFinalize (env : Env) (st : AgentState) : List Event × AgentState :=
  let session := env.stream st.streamCount
  let st1 := { st with streamCount := st.streamCount + 1 }
  match runStreamEvents false session.events with
  | StreamOutcome.completed evs rid =>
    let prevNew := pyOrOptStr rid st1.prev
    (Event.final_start :: evs ++ [Event.final_done (sortList st1.acc.sources) prevNew],
      { st1 with prev := prevNew })
  | StreamOutcome.exhausted evs =>
    match session.raisesAfter with
    | some _ =>
      (Event.final_start :: evs ++ [Event.final failSafe (sortList st1.acc.sources) st1.prev],
        st1)
    | none => (Event.final_start :: evs, st1)

/-- The per-batch tool execution of lines 684–720: for each pending call, in
order, emit `tool_call`, dispatch (with the exception-to-payload wrapper),
emit `tool_result`, and append the `function_call_output` item for the next
model turn. -/
def execToolCalls (env : Env) : List ToolCallItem → AgentState → List Event × AgentState
  | [], st => ([], st)
  | tc :: rest, st =>
    let name := tc.name.getD ""
    let args := tc.parsedArgs
    let rp := dispatchCaught name args (env.toolExec st.toolCount) st.acc
    let st1 : AgentState :=
      { st with
        acc := rp.2
        toolCount := st.toolCount + 1
        nextInputs := st.nextInputs ++ [InputItem.functionCallOutput tc.call_id rp.1] }
    let rec2 := execToolCalls env rest st1
    (Event.tool_call name args tc.call_id :: Event.tool_result name tc.call_id :: rec2.1,
      rec2.2)

/-- The state after logging one turn-loop `responses.create` call (ghost
bookkeeping of lines 576–584). -/
def loopLogState (st : AgentState) : AgentState :=
  { st with
    createLog := st.createLog ++ [st.nextInputs]
    loopCreates := st.loopCreates + 1 }

/-- The state after a successful turn-loop model call: the call is logged and
`previous_response_id = getattr(response, "id", None)` overwrites the token
unconditionally (line 590). -/
def turnState (st : AgentState) (resp : ModelResponse) : AgentState :=
  { loopLogState st with prev := resp.id }

/-- The state at the head of the tool-execution section: `next_inputs = []`
(line 684). -/
def toolsState (st : AgentState) (resp : ModelResponse) : AgentState :=
  { turnState st resp with nextInputs := [] }

/-- The bounded turn loop of `chat_stream` (`for turn in range(3)` plus the
budget path), with `fuel` the remaining iterations.  Each iteration logs and
makes one `responses.create` call (a raise emits a single terminal `error`),
overwrites `previous_response_id` with the response id, and either executes
the pending tool batch and recurses, or hands off to the Streaming
Finalizer — whose fall-through case continues the loop with an empty input
list, exactly as the source's control flow does. -/
def chatLoop (env : Env) (message : String) : Nat → AgentState → List Event × AgentState
  | 0, st => budgetFinalize env st
  | Nat.succ fuel, st =>
    match env.create st.createLog.length with
    | Except.error _ => ([Event.error failSafe], loopLogState st)
    | Except.ok resp =>
      if (pendingToolCalls resp.output).isEmpty then
        match finalizeStream env message (turnState st resp) with
        | (FinalizeResult.done evs, st2) => (Event.final_start :: evs, st2)
        | (FinalizeResult.fallthrough evs, st2) =>
          let rec4 := chatLoop env message fuel { st2 with nextInputs := [] }
          (Event.final_start :: (evs ++ rec4.1), rec4.2)
      else
        let br := execToolCalls env (pendingToolCalls resp.output) (toolsState st resp)
        let rec5 := chatLoop env message fuel br.2
        (br.1 ++ rec5.1, rec5.2)

/-- The observable result of one `chat_stream` invocation. -/
structure ChatResult where
  events : List Event
  finalState : AgentState

/-- The initial loop state of one invocation: the user's message is the sole
input item and the caller-supplied continuation token (if any) is carried. -/
def initState (message : String) (previous_response_id : Option String) : AgentState :=
  { prev := previous_response_id
    nextInputs := [InputItem.userMessage message]
    acc := SourceAcc.empty
    createLog := []
    streamCount := 0
    toolCount := 0
    loopCreates := 0 }

/-- `AgentService.chat_stream`: seed the state with the user message and the
caller's continuation token, and run the bounded loop with 3 turns. -/
def chatStream (env : Env) (message : String) (previous_response_id : Option String) :
    ChatResult :=
  let r := chatLoop env message 3 (initState message previous_response_id)
  ⟨r.1, r.2⟩

/-- Total number of interactions with the model endpoint during an
invocation: non-streaming calls plus streaming sessions. -/
def ChatResult.modelRoundTrips (r : ChatResult) : Nat :=
  r.finalState.createLog.length + r.finalState.streamCount

/-- Whether an event is a `tool_call`. -/
def Event.isToolCallEvent : Event → Bool
  | Event.tool_call _ _ _ => true
  | _ => false

/-- Whether an event is a `tool_result`. -/
def Event.isToolResultEvent : Event → Bool
  | Event.tool_result _ _ => true
  | _ => false

/-- Whether an event is one of the three terminal variants of the spec. -/
def isTerminal : Event → Bool
  | Event.final_done _ _ => true
  | Event.final _ _ _ => true
  | Event.error _ => true
  | _ => false

/-- A streaming session is well behaved when it delivers no `response.error`
event and either reaches a `response.completed` event or raises: the shape the
Responses streaming protocol produces in practice.  The defensive
`response.error` branch and the silent exhausted-stream fall-through of the
source are exactly the paths this excludes. -/
def StreamSession.wellBehaved (s : StreamSession) : Prop :=
  (∀ m, StreamEvent.responseError m ∉ s.events) ∧
  ((∃ rid, StreamEvent.responseCompleted rid ∈ s.events) ∨ s.raisesAfter ≠ none)

/-- The registered tool names of `_build_tools`/`_dispatch_tool`. -/
def knownToolNames : List String :=
  ["search_notes", "create_note", "update_note", "delete_note"]

/-! Concrete environments used to evaluate the model at specific inputs. -/

/-- A pending call to the unknown tool `"foo"`. -/
def tcFoo : ToolCallItem :=
  ⟨some "foo", RawArguments.parses ToolArgs.empty, some "call_1"⟩

/-- A response requesting one `"foo"` tool call. -/
def respFoo : ModelResponse := { output := [OutputItem.functionCall tcFoo] }

/-- A response with no pending tool calls. -/
def respPlain : ModelResponse := {}

/-- A session that immediately completes. -/
def sessionCompleted : StreamSession := ⟨[StreamEvent.responseCompleted none], none⟩

/-- Environment: first response final, stream completes at once. -/
def envTrivial : Env :=
  { create := fun _ => Except.ok respPlain
    stream := fun _ => sessionCompleted
    toolExec := fun _ => {} }

/-- Environment whose streaming session emits a mid-stream `response.error`
event and then completes. -/
def envMidStreamError : Env :=
  { create := fun _ => Except.ok respPlain
    stream := fun _ =>
      ⟨[StreamEvent.responseError none, StreamEvent.responseCompleted none], none⟩
    toolExec := fun _ => {} }

/-- Environment whose every `responses.create` call raises. -/
def envCreateRaises : Env :=
  { create := fun _ => Except.error "APIConnectionError"
    stream := fun _ => sessionCompleted
    toolExec := fun _ => {} }

/-- Environment that requests a tool call on every turn and whose budget-path
stream completes: it exercises the forced-finalize path. -/
def envThreeToolTurns : Env :=
  { create := fun _ => Except.ok respFoo
    stream := fun _ => sessionCompleted
    toolExec := fun _ => {} }

/-- Environment that requests a tool call on every turn and whose budget-path
stream fails to open. -/
def envBudgetStreamFails : Env :=
  { create := fun _ => Except.ok respFoo
    stream := fun _ => ⟨[], some "stream open failed"⟩
    toolExec := fun _ => {} }

/-- Environment: the first turn requests the unknown tool `"foo"`, the second
turn finalizes, the stream completes. -/
def envUnknownToolOnce : Env :=
  { create := fun n => Except.ok (if n = 0 then respFoo else respPlain)
    stream := fun _ => sessionCompleted
    toolExec := fun _ => {} }

/-- Collaborator behaviour whose note-creation call raises. -/
def teCreateBoom : ToolExec := { createRes := Except.error "boom" }

/-- Search arguments with an out-of-range weighting `alpha = 2`. -/
def argsBadAlpha : ToolArgs := { alpha := some 2 }

/-- The events a stream outcome carries. -/
def StreamOutcome.events : StreamOutcome → List Event
  | StreamOutcome.completed evs _ => evs
  | StreamOutcome.exhausted evs => evs

/-- Invariant of the source-id accumulator: the set has no duplicates and
contains every id returned by every successful search call so far. -/
def AccInv (a : SourceAcc) : Prop :=
  a.sources.Nodup ∧ ∀ ids ∈ a.searchLog, ∀ i ∈ ids, i ∈ a.sources

/-! ### Generic list helpers -/

theorem mem_of_getLastEq {α : Type} {l : List α} {a : α} (h : l.getLast? = some a) :
    a ∈ l := by
  induction l with
  | nil => simp at h
  | cons x xs ih =>
    cases xs with
    | nil =>
      simp [List.getLast?] at h
      simp [h]
    | cons y ys =>
      rw [List.getLast?_cons_cons] at h
      exact List.mem_cons_of_mem x (ih h)

/-! ### Properties of the sorted-set model (`setInsert`, `sortList`) -/

theorem mem_setInsert {a x : String} {s : List String} :
    a ∈ setInsert x s ↔ a = x ∨ a ∈ s := by
  unfold setInsert
  split
  · constructor
    · exact fun h => Or.inr h
    · rintro (rfl | h) <;> assumption
  · simp [or_comm]

theorem subset_setInsert (x : String) (s : List String) : s ⊆ setInsert x s := by
  intro a ha
  exact mem_setInsert.mpr (Or.inr ha)

theorem nodup_setInsert (x : String) {s : List String} (h : s.Nodup) :
    (setInsert x s).Nodup := by
  unfold setInsert
  split
  · exact h
  · rename_i hx
    simpa [List.nodup_append, hx] using h

theorem subset_foldl_setInsert (ids : List String) :
    ∀ s : List String, s ⊆ ids.foldl (fun t i => setInsert i t) s := by
  induction ids with
  | nil => intro s; exact fun a ha => ha
  | cons i is ih =>
    intro s
    exact fun a ha => ih (setInsert i s) (subset_setInsert i s ha)

theorem mem_foldl_setInsert (ids : List String) :
    ∀ s : List String, ∀ i ∈ ids, i ∈ ids.foldl (fun t j => setInsert j t) s := by
  induction ids with
  | nil => intro s i hi; simp at hi
  | cons j js ih =>
    intro s i hi
    rcases List.mem_cons.mp hi with rfl | hi2
    · exact subset_foldl_setInsert js (setInsert i s) (mem_setInsert.mpr (Or.inl rfl))
    · exact ih (setInsert j s) i hi2

theorem nodup_foldl_setInsert (ids : List String) :
    ∀ s : List String, s.Nodup → (ids.foldl (fun t i => setInsert i t) s).Nodup := by
  induction ids with
  | nil => intro s h; exact h
  | cons i is ih =>
    intro s h
    exact ih (setInsert i s) (nodup_setInsert i h)

theorem insertSorted_perm (x : String) (l : List String) :
    (insertSorted x l).Perm (x :: l) := by
  induction l with
  | nil => simp [insertSorted]
  | cons y ys ih =>
    unfold insertSorted
    split
    · exact List.Perm.refl _
    · exact (ih.cons y).trans (List.Perm.swap x y ys)

theorem sortList_perm (l : List String) : (sortList l).Perm l := by
  induction l with
  | nil => simp [sortList]
  | cons x xs ih => exact (insertSorted_perm x (sortList xs)).trans (ih.cons x)

theorem insertSorted_sorted (x : String) {l : List String}
    (h : l.Sorted (· ≤ ·)) : (insertSorted x l).Sorted (· ≤ ·) := by
  induction l with
  | nil => simp [insertSorted]
  | cons y ys ih =>
    rw [List.sorted_cons] at h
    obtain ⟨hy, hys⟩ := h
    unfold insertSorted
    split
    · rename_i hxy
      rw [List.sorted_cons]
      refine ⟨?_, List.sorted_cons.mpr ⟨hy, hys⟩⟩
      intro b hb
      rcases List.mem_cons.mp hb with rfl | hb2
      · exact hxy
      · exact le_trans hxy (hy b hb2)
    · rename_i hxy
      rw [List.sorted_cons]
      refine ⟨?_, ih hys⟩
      intro b hb
      rcases List.mem_cons.mp ((insertSorted_perm x ys).mem_iff.mp hb) with rfl | hb2
      · exact le_of_not_le hxy
      · exact hy b hb2

theorem sortList_sorted (l : List String) : (sortList l).Sorted (· ≤ ·) := by
  induction l with
  | nil => simp [sortList]
  | cons x xs ih => exact insertSorted_sorted x ih

theorem mem_sortList {a : String} {l : List String} : a ∈ sortList l ↔ a ∈ l :=
  (sortList_perm l).mem_iff

theorem sortList_nodup {l : List String} (h : l.Nodup) : (sortList l).Nodup :=
  (sortList_perm l).nodup_iff.mpr h

/-! ### Dispatcher lemmas -/

theorem toolSearchNotes_acc {a : ToolArgs} {te : ToolExec} {acc : SourceAcc}
    {r : ToolResult} {acc2 : SourceAcc}
    (h : toolSearchNotes a te acc = Except.ok (r, acc2)) :
    acc.sources ⊆ acc2.sources ∧ (AccInv acc → AccInv acc2) := by
  unfold toolSearchNotes at h
  cases hreq : searchRequestOf a with
  | error e => simp [hreq, Bind.bind, Except.bind] at h
  | ok req =>
    cases hres : te.searchRes with
    | error e => simp [hreq, hres, Bind.bind, Except.bind] at h
    | ok ids =>
      simp only [hreq, hres, Bind.bind, Except.bind, Except.ok.injEq, Prod.mk.injEq] at h
      obtain ⟨-, h2⟩ := h
      subst h2
      constructor
      · exact subset_foldl_setInsert ids acc.sources
      · rintro ⟨hnd, hlog⟩
        refine ⟨nodup_foldl_setInsert ids acc.sources hnd, ?_⟩
        intro l hl i hi
        rcases List.mem_append.mp hl with hl2 | hl2
        · exact subset_foldl_setInsert ids acc.sources (hlog l hl2 i hi)
        · simp only [List.mem_singleton] at hl2
          subst hl2
          exact mem_foldl_setInsert _ acc.sources i hi

theorem dispatchTool_acc {name : String} {args : ToolArgs} {te : ToolExec}
    {acc : SourceAcc} {r : ToolResult} {acc2 : SourceAcc}
    (h : dispatchTool name args te acc = Except.ok (r, acc2)) :
    acc.sources ⊆ acc2.sources ∧ (AccInv acc → AccInv acc2) := by
  unfold dispatchTool at h
  split at h
  · exact toolSearchNotes_acc h
  · split at h
    · cases hk : toolCreateNote args.note_type te with
      | error e => simp [hk, Bind.bind, Except.bind] at h
      | ok r2 =>
        simp only [hk, Bind.bind, Except.bind, Except.ok.injEq, Prod.mk.injEq] at h
        obtain ⟨-, h2⟩ := h
        subst h2
        exact ⟨fun a ha => ha, fun hi => hi⟩
    · split at h
      · cases hk : toolUpdateNote args.note_type te with
        | error e => simp [hk, Bind.bind, Except.bind] at h
        | ok r2 =>
          simp only [hk, Bind.bind, Except.bind, Except.ok.injEq, Prod.mk.injEq] at h
          obtain ⟨-, h2⟩ := h
          subst h2
          exact ⟨fun a ha => ha, fun hi => hi⟩
      · split at h
        · cases hk : toolDeleteNote te with
          | error e => simp [hk, Bind.bind, Except.bind] at h
          | ok r2 =>
            simp only [hk, Bind.bind, Except.bind, Except.ok.injEq, Prod.mk.injEq] at h
            obtain ⟨-, h2⟩ := h
            subst h2
            exact ⟨fun a ha => ha, fun hi => hi⟩
        · simp only [Except.ok.injEq, Prod.mk.injEq] at h
          obtain ⟨-, h2⟩ := h
          subst h2
          exact ⟨fun a ha => ha, fun hi => hi⟩

theorem dispatchCaught_acc (name : String) (args : ToolArgs) (te : ToolExec)
    (acc : SourceAcc) :
    acc.sources ⊆ (dispatchCaught name args te acc).2.sources ∧
      (AccInv acc → AccInv (dispatchCaught name args te acc).2) := by
  unfold dispatchCaught
  cases h : dispatchTool name args te acc with
  | ok p =>
    obtain ⟨r, acc2⟩ := p
    exact dispatchTool_acc h
  | error e => exact ⟨fun a ha => ha, fun hi => hi⟩

/-! ### Stream-consumption lemmas -/

theorem StreamOutcome.events_push (pre : List Event) (o : StreamOutcome) :
    (StreamOutcome.push pre o).events = pre ++ o.events := by
  cases o <;> rfl

theorem runStreamEvents_events_delta (handleErr : Bool) :
    ∀ evs : List StreamEvent,
      (handleErr = true → ∀ m, StreamEvent.responseError m ∉ evs) →
      ∀ e ∈ (runStreamEvents handleErr evs).events, ∃ d, e = Event.final_delta d := by
  intro evs
  induction evs with
  | nil => intro _ e he; simp [runStreamEvents, StreamOutcome.events] at he
  | cons se rest ih =>
    intro hne e he
    have hne2 : handleErr = true → ∀ m, StreamEvent.responseError m ∉ rest := by
      intro h m hm
      exact hne h m (List.mem_cons_of_mem se hm)
    cases se with
    | outputTextDelta d =>
      cases d with
      | none =>
        rw [show runStreamEvents handleErr (StreamEvent.outputTextDelta none :: rest) =
            runStreamEvents handleErr rest from rfl] at he
        exact ih hne2 e he
      | some s =>
        by_cases hs : s = ""
        · simp only [runStreamEvents, hs, if_pos rfl] at he
          exact ih hne2 e he
        · simp only [runStreamEvents, if_neg hs, StreamOutcome.events_push] at he
          rcases List.mem_append.mp he with h1 | h1
          · simp only [List.mem_singleton] at h1
            exact ⟨s, h1⟩
          · exact ih hne2 e h1
    | responseError m =>
      cases handleErr with
      | true =>
        exact absurd (List.mem_cons_self _ _) (hne rfl m)
      | false =>
        rw [show runStreamEvents false (StreamEvent.responseError m :: rest) =
            runStreamEvents false rest from rfl] at he
        exact ih hne2 e he
    | responseCompleted rid =>
      simp [runStreamEvents, StreamOutcome.events] at he
    | otherEvent =>
      rw [show runStreamEvents handleErr (StreamEvent.otherEvent :: rest) =
          runStreamEvents handleErr rest from rfl] at he
      exact ih hne2 e he

theorem runStreamEvents_no_terminal (handleErr : Bool) (evs : List StreamEvent)
    (hne : handleErr = true → ∀ m, StreamEvent.responseError m ∉ evs) :
    ∀ e ∈ (runStreamEvents handleErr evs).events, isTerminal e = false := by
  intro e he
  obtain ⟨d, rfl⟩ := runStreamEvents_events_delta handleErr evs hne e he
  rfl

theorem runStreamEvents_completed_of_mem (handleErr : Bool) :
    ∀ evs : List StreamEvent, (∃ rid, StreamEvent.responseCompleted rid ∈ evs) →
      ∃ pre r2, runStreamEvents handleErr evs = StreamOutcome.completed pre r2 := by
  intro evs
  induction evs with
  | nil => rintro ⟨rid, h⟩; simp at h
  | cons se rest ih =>
    rintro ⟨rid, h⟩
    cases se with
    | outputTextDelta d =>
      have h2 : StreamEvent.responseCompleted rid ∈ rest := by
        rcases List.mem_cons.mp h with h3 | h3
        · cases h3
        · exact h3
      obtain ⟨pre, r2, hpr⟩ := ih ⟨rid, h2⟩
      cases d with
      | none => exact ⟨pre, r2, hpr⟩
      | some s =>
        by_cases hs : s = ""
        · refine ⟨pre, r2, ?_⟩
          simp only [runStreamEvents, hs, if_pos rfl]
          exact hpr
        · refine ⟨[Event.final_delta s] ++ pre, r2, ?_⟩
          simp only [runStreamEvents, if_neg hs, hpr]
          rfl
    | responseError m =>
      have h2 : StreamEvent.responseCompleted rid ∈ rest := by
        rcases List.mem_cons.mp h with h3 | h3
        · cases h3
        · exact h3
      obtain ⟨pre, r2, hpr⟩ := ih ⟨rid, h2⟩
      cases handleErr with
      | true =>
        refine ⟨[Event.error (pyOrStr m streamingFailedMsg)] ++ pre, r2, ?_⟩
        simp only [runStreamEvents, if_pos rfl, hpr]
        rfl
      | false =>
        exact ⟨pre, r2, hpr⟩
    | responseCompleted r3 => exact ⟨[], r3, rfl⟩
    | otherEvent =>
      have h2 : StreamEvent.responseCompleted rid ∈ rest := by
        rcases List.mem_cons.mp h with h3 | h3
        · cases h3
        · exact h3
      obtain ⟨pre, r2, hpr⟩ := ih ⟨rid, h2⟩
      exact ⟨pre, r2, hpr⟩

theorem runStreamEvents_exhausted_of_not_mem (handleErr : Bool) :
    ∀ evs : List StreamEvent, (∀ rid, StreamEvent.responseCompleted rid ∉ evs) →
      ∃ pre, runStreamEvents handleErr evs = StreamOutcome.exhausted pre := by
  intro evs
  induction evs with
  | nil => intro _; exact ⟨[], rfl⟩
  | cons se rest ih =>
    intro h
    have h2 : ∀ rid, StreamEvent.responseCompleted rid ∉ rest := by
      intro rid hm
      exact h rid (List.mem_cons_of_mem se hm)
    cases se with
    | outputTextDelta d =>
      obtain ⟨pre, hpr⟩ := ih h2
      cases d with
      | none => exact ⟨pre, hpr⟩
      | some s =>
        by_cases hs : s = ""
        · refine ⟨pre, ?_⟩
          simp only [runStreamEvents, hs, if_pos rfl]
          exact hpr
        · refine ⟨[Event.final_delta s] ++ pre, ?_⟩
          simp only [runStreamEvents, if_neg hs, hpr]
          rfl
    | responseError m =>
      obtain ⟨pre, hpr⟩ := ih h2
      cases handleErr with
      | true =>
        refine ⟨[Event.error (pyOrStr m streamingFailedMsg)] ++ pre, ?_⟩
        simp only [runStreamEvents, if_pos rfl, hpr]
        rfl
      | false => exact ⟨pre, hpr⟩
    | responseCompleted r3 =>
      exact absurd (List.mem_cons_self _ _) (h r3)
    | otherEvent =>
      obtain ⟨pre, hpr⟩ := ih h2
      exact ⟨pre, hpr⟩

/-! ### Finalizer lemmas -/

theorem finalizeStream_state (env : Env) (message : String) (st : AgentState) :
    (finalizeStream env message st).2.acc = st.acc ∧
    (finalizeStream env message st).2.streamCount = st.streamCount + 1 ∧
    (finalizeStream env message st).2.loopCreates = st.loopCreates ∧
    (finalizeStream env message st).2.toolCount = st.toolCount ∧
    st.createLog.length ≤ (finalizeStream env message st).2.createLog.length ∧
    (finalizeStream env message st).2.createLog.length ≤ st.createLog.length + 1 := by
  unfold finalizeStream
  cases h : runStreamEvents true (env.stream st.streamCount).events with
  | completed evs rid => simp [h]
  | exhausted evs =>
    cases h2 : (env.stream st.streamCount).raisesAfter with
    | none => simp [h, h2]
    | some e =>
      cases h3 : env.create st.createLog.length with
      | ok resp => simp [h, h2, h3]
      | error e2 => simp [h, h2, h3]

theorem finalizeStream_fallthrough_state {env : Env} {message : String}
    {st : AgentState} {evs : List Event} {st2 : AgentState}
    (h : finalizeStream env message st = (FinalizeResult.fallthrough evs, st2)) :
    st2 = { st with streamCount := st.streamCount + 1 } := by
  unfold finalizeStream at h
  cases h1 : runStreamEvents true (env.stream st.streamCount).events with
  | completed evs2 rid => simp [h1] at h
  | exhausted evs2 =>
    cases h2 : (env.stream st.streamCount).raisesAfter with
    | none =>
      simp only [h1, h2, Prod.mk.injEq] at h
      exact h.2.symm
    | some e =>
      cases h3 : env.create st.createLog.length with
      | ok resp => simp [h1, h2, h3] at h
      | error e2 => simp [h1, h2, h3] at h

theorem finalizeStream_done_last {env : Env} {message : String}
    {st : AgentState} {evs : List Event} {st2 : AgentState}
    (h : finalizeStream env message st = (FinalizeResult.done evs, st2)) :
    (∀ s rid, evs.getLast? = some (Event.final_done s rid) →
      s = sortList st2.acc.sources) ∧
    (∀ resp s rid, evs.getLast? = some (Event.final resp s rid) →
      s = sortList st2.acc.sources) := by
  have hacc : st2.acc = st.acc := by
    have := (finalizeStream_state env message st).1
    rw [h] at this
    exact this
  unfold finalizeStream at h
  cases h1 : runStreamEvents true (env.stream st.streamCount).events with
  | completed evs2 rid =>
    simp only [h1, Prod.mk.injEq, FinalizeResult.done.injEq] at h
    obtain ⟨he, -⟩ := h
    subst he
    constructor
    · intro s rid2 hlast
      rw [List.getLast?_concat] at hlast
      rw [Option.some.injEq] at hlast
      rw [Event.final_done.injEq] at hlast
      rw [← hlast.1, hacc]
    · intro resp s rid2 hlast
      rw [List.getLast?_concat] at hlast
      rw [Option.some.injEq] at hlast
      cases hlast
  | exhausted evs2 =>
    cases h2 : (env.stream st.streamCount).raisesAfter with
    | none => simp [h1, h2] at h
    | some e =>
      cases h3 : env.create st.createLog.length with
      | ok resp =>
        simp only [h1, h2, h3, Prod.mk.injEq, FinalizeResult.done.injEq] at h
        obtain ⟨he, -⟩ := h
        subst he
        constructor
        · intro s rid2 hlast
          rw [List.getLast?_concat] at hlast
          rw [Option.some.injEq] at hlast
          cases hlast
        · intro resp2 s rid2 hlast
          rw [List.getLast?_concat] at hlast
          rw [Option.some.injEq] at hlast
          rw [Event.final.injEq] at hlast
          rw [← hlast.2.1, hacc]
      | error e2 =>
        simp only [h1, h2, h3, Prod.mk.injEq, FinalizeResult.done.injEq] at h
        obtain ⟨he, -⟩ := h
        subst he
        constructor
        · intro s rid2 hlast
          rw [List.getLast?_concat] at hlast
          rw [Option.some.injEq] at hlast
          cases hlast
        · intro resp2 s rid2 hlast
          rw [List.getLast?_concat] at hlast
          rw [Option.some.injEq] at hlast
          cases hlast

theorem budgetFinalize_state (env : Env) (st : AgentState) :
    (budgetFinalize env st).2.acc = st.acc ∧
    (budgetFinalize env st).2.streamCount = st.streamCount + 1 ∧
    (budgetFinalize env st).2.loopCreates = st.loopCreates ∧
    (budgetFinalize env st).2.createLog = st.createLog := by
  unfold budgetFinalize
  cases h : runStreamEvents false (env.stream st.streamCount).events with
  | completed evs rid => simp [h]
  | exhausted evs =>
    cases h2 : (env.stream st.streamCount).raisesAfter with
    | none => simp [h, h2]
    | some e => simp [h, h2]

theorem budgetFinalize_events_ne_nil (env : Env) (st : AgentState) :
    (budgetFinalize env st).1 ≠ [] := by
  unfold budgetFinalize
  cases h : runStreamEvents false (env.stream st.streamCount).events with
  | completed evs rid => simp [h]
  | exhausted evs =>
    cases h2 : (env.stream st.streamCount).raisesAfter with
    | none => simp [h, h2]
    | some e => simp [h, h2]

theorem budgetFinalize_last (env : Env) (st : AgentState) :
    (∀ s rid, (budgetFinalize env st).1.getLast? = some (Event.final_done s rid) →
      s = sortList (budgetFinalize env st).2.acc.sources) ∧
    (∀ resp s rid, (budgetFinalize env st).1.getLast? = some (Event.final resp s rid) →
      s = sortList (budgetFinalize env st).2.acc.sources) := by
  unfold budgetFinalize
  cases h : runStreamEvents false (env.stream st.streamCount).events with
  | completed evs rid =>
    simp only [h]
    constructor
    · intro s rid2 hlast
      rw [show Event.final_start :: evs ++
          [Event.final_done (sortList st.acc.sources) (pyOrOptStr rid st.prev)] =
          (Event.final_start :: evs) ++
          [Event.final_done (sortList st.acc.sources) (pyOrOptStr rid st.prev)] from rfl,
        List.getLast?_concat, Option.some.injEq, Event.final_done.injEq] at hlast
      rw [← hlast.1]
    · intro resp s rid2 hlast
      rw [show Event.final_start :: evs ++
          [Event.final_done (sortList st.acc.sources) (pyOrOptStr rid st.prev)] =
          (Event.final_start :: evs) ++
          [Event.final_done (sortList st.acc.sources) (pyOrOptStr rid st.prev)] from rfl,
        List.getLast?_concat, Option.some.injEq] at hlast
      cases hlast
  | exhausted evs =>
    cases h2 : (env.stream st.streamCount).raisesAfter with
    | none =>
      simp only [h, h2]
      have hdelta := runStreamEvents_events_delta false (env.stream st.streamCount).events
        (by intro hfalse; cases hfalse)
      rw [h] at hdelta
      constructor
      · intro s rid2 hlast
        have hmem := mem_of_getLastEq hlast
        rcases List.mem_cons.mp hmem with h3 | h3
        · cases h3
        · obtain ⟨d, hd⟩ := hdelta _ h3
          cases hd
      · intro resp s rid2 hlast
        have hmem := mem_of_getLastEq hlast
        rcases List.mem_cons.mp hmem with h3 | h3
        · cases h3
        · obtain ⟨d, hd⟩ := hdelta _ h3
          cases hd
    | some e =>
      simp only [h, h2]
      constructor
      · intro s rid2 hlast
        rw [show Event.final_start :: evs ++
            [Event.final failSafe (sortList st.acc.sources) st.prev] =
            (Event.final_start :: evs) ++
            [Event.final failSafe (sortList st.acc.sources) st.prev] from rfl,
          List.getLast?_concat, Option.some.injEq] at hlast
        cases hlast
      · intro resp s rid2 hlast
        rw [show Event.final_start :: evs ++
            [Event.final failSafe (sortList st.acc.sources) st.prev] =
            (Event.final_start :: evs) ++
            [Event.final failSafe (sortList st.acc.sources) st.prev] from rfl,
          List.getLast?_concat, Option.some.injEq, Event.final.injEq] at hlast
        rw [← hlast.2.1]

/-! ### Batch-executor lemmas -/

theorem execToolCalls_events (env : Env) :
    ∀ (l : List ToolCallItem) (st : AgentState),
      (execToolCalls env l st).1 =
        (l.map fun tc =>
          [Event.tool_call (tc.name.getD "") tc.parsedArgs tc.call_id,
            Event.tool_result (tc.name.getD "") tc.call_id]).flatten := by
  intro l
  induction l with
  | nil => intro st; rfl
  | cons tc rest ih =>
    intro st
    simp only [execToolCalls, List.map_cons, List.flatten, ih]
    rfl

theorem execToolCalls_no_terminal (env : Env) :
    ∀ (l : List ToolCallItem) (st : AgentState),
      ∀ e ∈ (execToolCalls env l st).1, isTerminal e = false := by
  intro l
  induction l with
  | nil => intro st e he; simp [execToolCalls] at he
  | cons tc rest ih =>
    intro st e he
    simp only [execToolCalls, List.mem_cons] at he
    rcases he with rfl | rfl | he3
    · rfl
    · rfl
    · exact ih _ e he3

theorem execToolCalls_state (env : Env) :
    ∀ (l : List ToolCallItem) (st : AgentState),
      (execToolCalls env l st).2.createLog = st.createLog ∧
      (execToolCalls env l st).2.streamCount = st.streamCount ∧
      (execToolCalls env l st).2.loopCreates = st.loopCreates ∧
      st.acc.sources ⊆ (execToolCalls env l st).2.acc.sources ∧
      (AccInv st.acc → AccInv (execToolCalls env l st).2.acc) := by
  intro l
  induction l with
  | nil =>
    intro st
    exact ⟨rfl, rfl, rfl, fun a ha => ha, fun hi => hi⟩
  | cons tc rest ih =>
    intro st
    simp only [execToolCalls]
    obtain ⟨hd1, hd2⟩ :=
      dispatchCaught_acc (tc.name.getD "") tc.parsedArgs (env.toolExec st.toolCount) st.acc
    obtain ⟨i1, i2, i3, i4, i5⟩ := ih
      { st with
        acc := (dispatchCaught (tc.name.getD "") tc.parsedArgs (env.toolExec st.toolCount) st.acc).2
        toolCount := st.toolCount + 1
        nextInputs := st.nextInputs ++
          [InputItem.functionCallOutput tc.call_id
            (dispatchCaught (tc.name.getD "") tc.parsedArgs (env.toolExec st.toolCount) st.acc).1] }
    exact ⟨i1, i2, i3, fun a ha => i4 (hd1 ha), fun hi => i5 (hd2 hi)⟩

theorem execToolCalls_nextInputs_mono (env : Env) :
    ∀ (l : List ToolCallItem) (st : AgentState),
      ∀ x ∈ st.nextInputs, x ∈ (execToolCalls env l st).2.nextInputs := by
  intro l
  induction l with
  | nil => intro st x hx; exact hx
  | cons tc rest ih =>
    intro st x hx
    simp only [execToolCalls]
    exact ih _ x (List.mem_append.mpr (Or.inl hx))

theorem exists_getLastEq_of_ne_nil {α : Type} :
    ∀ {l : List α}, l ≠ [] → ∃ y, l.getLast? = some y := by
  intro l
  induction l with
  | nil => intro h; exact absurd rfl h
  | cons x xs ih =>
    intro h
    cases xs with
    | nil => exact ⟨x, rfl⟩
    | cons y ys =>
      obtain ⟨z, hz⟩ := ih (by simp)
      exact ⟨z, by rw [List.getLast?_cons_cons]; exact hz⟩

theorem getLastEq_cons_of_ne_nil {α : Type} (x : α) {l : List α} (h : l ≠ []) :
    (x :: l).getLast? = l.getLast? := by
  obtain ⟨y, hy⟩ := exists_getLastEq_of_ne_nil h
  rw [show x :: l = [x] ++ l from rfl, List.getLast?_append, hy]
  rfl

theorem getLastEq_append_of_ne_nil {α : Type} (l1 : List α) {l2 : List α} (h : l2 ≠ []) :
    (l1 ++ l2).getLast? = l2.getLast? := by
  obtain ⟨y, hy⟩ := exists_getLastEq_of_ne_nil h
  rw [List.getLast?_append, hy]
  rfl

theorem finalizeStream_done_ne_nil {env : Env} {message : String}
    {st : AgentState} {evs : List Event} {st2 : AgentState}
    (h : finalizeStream env message st = (FinalizeResult.done evs, st2)) :
    evs ≠ [] := by
  unfold finalizeStream at h
  cases h1 : runStreamEvents true (env.stream st.streamCount).events with
  | completed evs2 rid =>
    simp only [h1, Prod.mk.injEq, FinalizeResult.done.injEq] at h
    rw [← h.1]
    simp
  | exhausted evs2 =>
    cases h2 : (env.stream st.streamCount).raisesAfter with
    | none => simp [h1, h2] at h
    | some e =>
      cases h3 : env.create st.createLog.length with
      | ok resp =>
        simp only [h1, h2, h3, Prod.mk.injEq, FinalizeResult.done.injEq] at h
        rw [← h.1]
        simp
      | error e2 =>
        simp only [h1, h2, h3, Prod.mk.injEq, FinalizeResult.done.injEq] at h
        rw [← h.1]
        simp

theorem finalizeStream_wellBehaved {env : Env} {message : String} {st : AgentState}
    (hwb : (env.stream st.streamCount).wellBehaved) :
    ∃ pre t st2, finalizeStream env message st = (FinalizeResult.done (pre ++ [t]), st2) ∧
      (∀ e ∈ pre, isTerminal e = false) ∧ isTerminal t = true := by
  obtain ⟨hne, hcr⟩ := hwb
  by_cases hcomp : ∃ rid, StreamEvent.responseCompleted rid ∈ (env.stream st.streamCount).events
  · obtain ⟨pre, r2, hrun⟩ :=
      runStreamEvents_completed_of_mem true (env.stream st.streamCount).events hcomp
    have hpre : ∀ e ∈ pre, isTerminal e = false := by
      have hnt := runStreamEvents_no_terminal true (env.stream st.streamCount).events
        (fun _ => hne)
      rw [hrun] at hnt
      exact hnt
    refine ⟨pre, Event.final_done (sortList st.acc.sources) (pyOrOptStr r2 st.prev),
      (finalizeStream env message st).2, ?_, hpre, rfl⟩
    rw [Prod.ext_iff]
    refine ⟨?_, rfl⟩
    unfold finalizeStream
    simp only [hrun]
  · have hnc : ∀ rid, StreamEvent.responseCompleted rid ∉ (env.stream st.streamCount).events :=
      fun rid hm => hcomp ⟨rid, hm⟩
    obtain ⟨pre, hrun⟩ :=
      runStreamEvents_exhausted_of_not_mem true (env.stream st.streamCount).events hnc
    have hpre : ∀ e ∈ pre, isTerminal e = false := by
      have hnt := runStreamEvents_no_terminal true (env.stream st.streamCount).events
        (fun _ => hne)
      rw [hrun] at hnt
      exact hnt
    have hra : ∃ e, (env.stream st.streamCount).raisesAfter = some e := by
      cases hcr with
      | inl hcomp2 => exact absurd hcomp2 hcomp
      | inr hnn =>
        cases hx : (env.stream st.streamCount).raisesAfter with
        | none => exact absurd hx hnn
        | some e => exact ⟨e, rfl⟩
    obtain ⟨e, he⟩ := hra
    cases hc2 : env.create st.createLog.length with
    | ok resp =>
      refine ⟨pre, Event.final (fallbackText resp) (sortList st.acc.sources)
        (pyOrOptStr resp.id st.prev), (finalizeStream env message st).2, ?_, hpre, rfl⟩
      rw [Prod.ext_iff]
      refine ⟨?_, rfl⟩
      unfold finalizeStream
      simp only [hrun, he, hc2]
    | error e2 =>
      refine ⟨pre, Event.error fallbackFailMsg, (finalizeStream env message st).2,
        ?_, hpre, rfl⟩
      rw [Prod.ext_iff]
      refine ⟨?_, rfl⟩
      unfold finalizeStream
      simp only [hrun, he, hc2]

theorem budgetFinalize_wellBehaved {env : Env} {st : AgentState}
    (hwb : (env.stream st.streamCount).wellBehaved) :
    ∃ pre t st2, budgetFinalize env st = ((Event.final_start :: pre) ++ [t], st2) ∧
      (∀ e ∈ pre, isTerminal e = false) ∧ isTerminal t = true := by
  obtain ⟨hne, hcr⟩ := hwb
  have hfalse : (false = true → ∀ m, StreamEvent.responseError m ∉
      (env.stream st.streamCount).events) := by
    intro hq
    cases hq
  by_cases hcomp : ∃ rid, StreamEvent.responseCompleted rid ∈ (env.stream st.streamCount).events
  · obtain ⟨pre, r2, hrun⟩ :=
      runStreamEvents_completed_of_mem false (env.stream st.streamCount).events hcomp
    have hpre : ∀ e ∈ pre, isTerminal e = false := by
      have hnt := runStreamEvents_no_terminal false (env.stream st.streamCount).events hfalse
      rw [hrun] at hnt
      exact hnt
    refine ⟨pre, Event.final_done (sortList st.acc.sources) (pyOrOptStr r2 st.prev),
      (budgetFinalize env st).2, ?_, hpre, rfl⟩
    rw [Prod.ext_iff]
    refine ⟨?_, rfl⟩
    unfold budgetFinalize
    simp only [hrun]
  · have hnc : ∀ rid, StreamEvent.responseCompleted rid ∉ (env.stream st.streamCount).events :=
      fun rid hm => hcomp ⟨rid, hm⟩
    obtain ⟨pre, hrun⟩ :=
      runStreamEvents_exhausted_of_not_mem false (env.stream st.streamCount).events hnc
    have hpre : ∀ e ∈ pre, isTerminal e = false := by
      have hnt := runStreamEvents_no_terminal false (env.stream st.streamCount).events hfalse
      rw [hrun] at hnt
      exact hnt
    have hra : ∃ e, (env.stream st.streamCount).raisesAfter = some e := by
      cases hcr with
      | inl hcomp2 => exact absurd hcomp2 hcomp
      | inr hnn =>
        cases hx : (env.stream st.streamCount).raisesAfter with
        | none => exact absurd hx hnn
        | some e => exact ⟨e, rfl⟩
    obtain ⟨e, he⟩ := hra
    refine ⟨pre, Event.final failSafe (sortList st.acc.sources) st.prev,
      (budgetFinalize env st).2, ?_, hpre, rfl⟩
    rw [Prod.ext_iff]
    refine ⟨?_, rfl⟩
    unfold budgetFinalize
    simp only [hrun, he]

/-! ### Turn-loop lemmas -/

theorem chatLoop_state (env : Env) (message : String) :
    ∀ (fuel : Nat) (st : AgentState),
      (chatLoop env message fuel st).1 ≠ [] ∧
      st.acc.sources ⊆ (chatLoop env message fuel st).2.acc.sources ∧
      (AccInv st.acc → AccInv (chatLoop env message fuel st).2.acc) ∧
      (chatLoop env message fuel st).2.loopCreates ≤ st.loopCreates + fuel ∧
      (chatLoop env message fuel st).2.createLog.length +
          (chatLoop env message fuel st).2.streamCount
        ≤ st.createLog.length + st.streamCount + (2 * fuel + 1) := by
  intro fuel
  induction fuel with
  | zero =>
    intro st
    obtain ⟨b1, b2, b3, b4⟩ := budgetFinalize_state env st
    simp only [chatLoop]
    rw [b1, b2, b3, b4]
    exact ⟨budgetFinalize_events_ne_nil env st, fun a ha => ha, fun hi => hi,
      Nat.le_add_right _ _, by omega⟩
  | succ fuel ih =>
    intro st
    simp only [chatLoop]
    cases hc : env.create st.createLog.length with
    | error e =>
      refine ⟨by simp, fun a ha => ha, fun hi => hi, ?_, ?_⟩
      · show st.loopCreates + 1 ≤ st.loopCreates + (fuel + 1)
        omega
      · show (st.createLog ++ [st.nextInputs]).length + st.streamCount ≤
          st.createLog.length + st.streamCount + (2 * (fuel + 1) + 1)
        rw [List.length_append, List.length_singleton]
        omega
    | ok resp =>
      by_cases hp : (pendingToolCalls resp.output).isEmpty = true
      · simp only [hp, if_true]
        rcases hf : finalizeStream env message (turnState st resp) with ⟨fr, st2⟩
        have hfs := finalizeStream_state env message (turnState st resp)
        rw [hf] at hfs
        have hacc : (turnState st resp).acc = st.acc := rfl
        have hlog : (turnState st resp).createLog = st.createLog ++ [st.nextInputs] := rfl
        have hlc : (turnState st resp).loopCreates = st.loopCreates + 1 := rfl
        have hsc : (turnState st resp).streamCount = st.streamCount := rfl
        rw [hacc, hlog, hlc, hsc] at hfs
        obtain ⟨f1, f2, f3, -, f5, f6⟩ := hfs
        cases fr with
        | done evs =>
          have g1 : st2.acc = st.acc := f1
          have g2 : st2.streamCount = st.streamCount + 1 := f2
          have g3 : st2.loopCreates = st.loopCreates + 1 := f3
          have g5 : (st.createLog ++ [st.nextInputs]).length ≤ st2.createLog.length := f5
          have g6 : st2.createLog.length ≤ (st.createLog ++ [st.nextInputs]).length + 1 := f6
          rw [List.length_append, List.length_singleton] at g5 g6
          refine ⟨by simp, ?_, ?_, ?_, ?_⟩
          · show st.acc.sources ⊆ st2.acc.sources
            rw [g1]
            exact fun a ha => ha
          · show AccInv st.acc → AccInv st2.acc
            rw [g1]
            exact fun hi => hi
          · show st2.loopCreates ≤ st.loopCreates + (fuel + 1)
            omega
          · show st2.createLog.length + st2.streamCount ≤
              st.createLog.length + st.streamCount + (2 * (fuel + 1) + 1)
            omega
        | fallthrough evs =>
          have hst2 := finalizeStream_fallthrough_state hf
          obtain ⟨i1, i2, i3, i4, i5⟩ := ih { st2 with nextInputs := [] }
          have k2 : st2.acc = st.acc := by rw [hst2]; exact hacc
          have k3 : st2.loopCreates = st.loopCreates + 1 := by rw [hst2]; exact hlc
          have k4 : st2.createLog = st.createLog ++ [st.nextInputs] := by
            rw [hst2]; exact hlog
          have k5 : st2.streamCount = st.streamCount + 1 := by rw [hst2]; rw [hsc]
          refine ⟨by simp, ?_, ?_, le_trans i4 ?_, le_trans i5 ?_⟩
          · rw [show st.acc = st2.acc from k2.symm]
            exact i2
          · rw [show st.acc = st2.acc from k2.symm]
            exact i3
          · show st2.loopCreates + fuel ≤ st.loopCreates + (fuel + 1)
            rw [k3]
            omega
          · show st2.createLog.length + st2.streamCount + (2 * fuel + 1) ≤
              st.createLog.length + st.streamCount + (2 * (fuel + 1) + 1)
            rw [k4, k5, List.length_append, List.length_singleton]
            omega
      · simp only [hp, if_false]
        obtain ⟨e1, e2, e3, e4, e5⟩ :=
          execToolCalls_state env (pendingToolCalls resp.output) (toolsState st resp)
        obtain ⟨i1, i2, i3, i4, i5⟩ :=
          ih (execToolCalls env (pendingToolCalls resp.output) (toolsState st resp)).2
        have hacc : (toolsState st resp).acc = st.acc := rfl
        have hlog : (toolsState st resp).createLog = st.createLog ++ [st.nextInputs] := rfl
        have hlc : (toolsState st resp).loopCreates = st.loopCreates + 1 := rfl
        have hsc : (toolsState st resp).streamCount = st.streamCount := rfl
        rw [hacc] at e4 e5
        refine ⟨?_, ?_, ?_, le_trans i4 ?_, le_trans i5 ?_⟩
        · intro hnil
          exact i1 (List.append_eq_nil.mp hnil).2
        · exact fun a ha => i2 (e4 ha)
        · exact fun hi => i3 (e5 hi)
        · rw [e3, hlc]
          omega
        · rw [e1, e2, hlog, hsc, List.length_append, List.length_singleton]
          omega

theorem chatLoop_last (env : Env) (message : String) :
    ∀ (fuel : Nat) (st : AgentState),
      (∀ s rid, (chatLoop env message fuel st).1.getLast? = some (Event.final_done s rid) →
        s = sortList (chatLoop env message fuel st).2.acc.sources) ∧
      (∀ resp s rid, (chatLoop env message fuel st).1.getLast? = some (Event.final resp s rid) →
        s = sortList (chatLoop env message fuel st).2.acc.sources) := by
  intro fuel
  induction fuel with
  | zero =>
    intro st
    exact budgetFinalize_last env st
  | succ fuel ih =>
    intro st
    simp only [chatLoop]
    cases hc : env.create st.createLog.length with
    | error e =>
      constructor
      · intro s rid hlast
        rw [show ([Event.error failSafe] : List Event).getLast? =
          some (Event.error failSafe) from rfl, Option.some.injEq] at hlast
        cases hlast
      · intro resp s rid hlast
        rw [show ([Event.error failSafe] : List Event).getLast? =
          some (Event.error failSafe) from rfl, Option.some.injEq] at hlast
        cases hlast
    | ok resp =>
      dsimp only
      by_cases hp : (pendingToolCalls resp.output).isEmpty = true
      · rw [if_pos hp]
        rcases hf : finalizeStream env message (turnState st resp) with ⟨fr, st2⟩
        cases fr with
        | done evs =>
          have hne := finalizeStream_done_ne_nil hf
          have hlem := finalizeStream_done_last hf
          constructor
          · intro s rid hlast
            rw [getLastEq_cons_of_ne_nil _ hne] at hlast
            exact hlem.1 s rid hlast
          · intro resp2 s rid hlast
            rw [getLastEq_cons_of_ne_nil _ hne] at hlast
            exact hlem.2 resp2 s rid hlast
        | fallthrough evs =>
          have hrecne := (chatLoop_state env message fuel { st2 with nextInputs := [] }).1
          obtain ⟨ihd, ihf⟩ := ih { st2 with nextInputs := [] }
          have hx : (Event.final_start ::
              (evs ++ (chatLoop env message fuel { st2 with nextInputs := [] }).1)).getLast? =
              (chatLoop env message fuel { st2 with nextInputs := [] }).1.getLast? := by
            rw [getLastEq_cons_of_ne_nil _ (by
              intro hnil
              exact hrecne (List.append_eq_nil.mp hnil).2)]
            exact getLastEq_append_of_ne_nil evs hrecne
          constructor
          · intro s rid hlast
            rw [hx] at hlast
            exact ihd s rid hlast
          · intro resp2 s rid hlast
            rw [hx] at hlast
            exact ihf resp2 s rid hlast
      · rw [if_neg hp]
        have hrecne := (chatLoop_state env message fuel
          (execToolCalls env (pendingToolCalls resp.output) (toolsState st resp)).2).1
        obtain ⟨ihd, ihf⟩ := ih
          (execToolCalls env (pendingToolCalls resp.output) (toolsState st resp)).2
        have hx : ((execToolCalls env (pendingToolCalls resp.output) (toolsState st resp)).1 ++
            (chatLoop env message fuel
              (execToolCalls env (pendingToolCalls resp.output) (toolsState st resp)).2).1).getLast? =
            (chatLoop env message fuel
              (execToolCalls env (pendingToolCalls resp.output) (toolsState st resp)).2).1.getLast? :=
          getLastEq_append_of_ne_nil _ hrecne
        constructor
        · intro s rid hlast
          rw [hx] at hlast
          exact ihd s rid hlast
        · intro resp2 s rid hlast
          rw [hx] at hlast
          exact ihf resp2 s rid hlast

theorem limitVal_bounds (l : Option Int) : 1 ≤ limitVal l ∧ limitVal l ≤ 200 := by
  unfold limitVal
  constructor
  · exact le_max_left 1 _
  · exact max_le (by norm_num) (min_le_right _ _)

theorem limitVal_neg {l : Int} (h : l < 0) : limitVal (some l) = 1 := by
  unfold limitVal pyOrInt
  dsimp only
  rw [if_neg (by omega : ¬ l = 0)]
  rw [min_eq_left (by omega : l ≤ 200)]
  rw [max_eq_left (by omega : l ≤ 1)]

theorem searchRequestOf_alpha_error {a : ToolArgs}
    (h : ¬ (0 ≤ alphaVal a.alpha ∧ alphaVal a.alpha ≤ 1)) :
    ∃ e, searchRequestOf a = Except.error e := by
  unfold searchRequestOf
  cases hn : noteTypeValOpt a.note_type with
  | error e => exact ⟨e, by simp [hn, Bind.bind, Except.bind]⟩
  | ok nt =>
    refine ⟨"ValidationError: AgentSearchRequest.alpha out of range", ?_⟩
    simp only [hn, Bind.bind, Except.bind]
    unfold mkAgentSearchRequest
    rw [if_neg (not_not_intro (limitVal_bounds a.limit))]
    rw [if_pos h]

theorem toolSearchNotes_error_of_request {a : ToolArgs} {te : ToolExec} {acc : SourceAcc}
    {e : String} (h : searchRequestOf a = Except.error e) :
    toolSearchNotes a te acc = Except.error e := by
  unfold toolSearchNotes
  simp [h, Bind.bind, Except.bind]

theorem foldl_append_all_empty :
    ∀ (l : List String) (acc : String), (∀ x ∈ l, x = "") →
      l.foldl (fun r s => r ++ s) acc = acc := by
  intro l
  induction l with
  | nil => intro acc _; rfl
  | cons x xs ih =>
    intro acc h
    have hx : x = "" := h x (List.mem_cons_self x xs)
    have hrest : ∀ y ∈ xs, y = "" := fun y hy => h y (List.mem_cons_of_mem x hy)
    rw [List.foldl_cons, hx]
    rw [show acc ++ "" = acc from by simp]
    exact ih acc hrest

theorem fallbackText_apology {resp : ModelResponse}
    (h1 : resp.output_text = none ∨ resp.output_text = some "")
    (h2 : ∀ it ∈ resp.output, itemText it = "") :
    fallbackText resp = failSafe := by
  have ht0 : resp.output_text.getD "" = "" := by
    cases h1 with
    | inl h => rw [h]; rfl
    | inr h => rw [h]; rfl
  have hj : String.join (resp.output.map itemText) = "" := by
    show (resp.output.map itemText).foldl (fun r s => r ++ s) "" = ""
    refine foldl_append_all_empty _ "" ?_
    intro x hx
    obtain ⟨it, hit, rfl⟩ := List.mem_map.mp hx
    exact h2 it hit
  simp [fallbackText, ht0, hj]

theorem chatLoop_create_error {env : Env} {message : String} {fuel : Nat}
    {st : AgentState} {e : String}
    (h : env.create st.createLog.length = Except.error e) :
    chatLoop env message (Nat.succ fuel) st = ([Event.error failSafe], loopLogState st) := by
  simp only [chatLoop, h]

theorem chatLoop_wellBehaved (env : Env) (message : String)
    (hwb : ∀ n, (env.stream n).wellBehaved) :
    ∀ (fuel : Nat) (st : AgentState),
      ∃ pre t, (chatLoop env message fuel st).1 = pre ++ [t] ∧
        (∀ e ∈ pre, isTerminal e = false) ∧ isTerminal t = true := by
  intro fuel
  induction fuel with
  | zero =>
    intro st
    obtain ⟨pre, t, st2, heq, hpre, ht⟩ := budgetFinalize_wellBehaved (hwb st.streamCount)
    refine ⟨Event.final_start :: pre, t, ?_, ?_, ht⟩
    · show (budgetFinalize env st).1 = (Event.final_start :: pre) ++ [t]
      rw [heq]
    · intro e he
      rcases List.mem_cons.mp he with rfl | he2
      · rfl
      · exact hpre e he2
  | succ fuel ih =>
    intro st
    simp only [chatLoop]
    cases hc : env.create st.createLog.length with
    | error e =>
      exact ⟨[], Event.error failSafe, rfl, (by intro e he; cases he), rfl⟩
    | ok resp =>
      dsimp only
      by_cases hp : (pendingToolCalls resp.output).isEmpty = true
      · rw [if_pos hp]
        obtain ⟨pre, t, st2, heq, hpre, ht⟩ :=
          @finalizeStream_wellBehaved env message (turnState st resp) (hwb _)
        rw [heq]
        refine ⟨Event.final_start :: pre, t, rfl, ?_, ht⟩
        intro e he
        rcases List.mem_cons.mp he with rfl | he2
        · rfl
        · exact hpre e he2
      · rw [if_neg hp]
        obtain ⟨pre, t, hre, hpre, ht⟩ := ih
          (execToolCalls env (pendingToolCalls resp.output) (toolsState st resp)).2
        refine ⟨(execToolCalls env (pendingToolCalls resp.output) (toolsState st resp)).1 ++ pre,
          t, ?_, ?_, ht⟩
        · rw [hre, List.append_assoc]
        · intro e he
          rcases List.mem_append.mp he with he2 | he2
          · exact execToolCalls_no_terminal env _ _ e he2
          · exact hpre e he2

/-- Helper for C9: `_dispatch_tool` on an unregistered tool name returns the
structured unknown-tool error without raising and leaves the accumulator
unchanged. -/
theorem dispatchTool_unknown {name : String} (h : name ∉ knownToolNames)
    (args : ToolArgs) (te : ToolExec) (acc : SourceAcc) :
    dispatchTool name args te acc =
      Except.ok (ToolResult.errorResult ("Unknown tool: " ++ name), acc) := by
  simp only [knownToolNames, List.mem_cons, List.not_mem_nil, or_false, not_or] at h
  obtain ⟨h1, h2, h3, h4⟩ := h
  unfold dispatchTool
  rw [if_neg h1, if_neg h2, if_neg h3, if_neg h4]

/-! ### Claims -/

/-- C1, counterexample: the claim "exactly one terminal event among
final_done/final/error, and it is last" is false as stated.  With a streaming
session that delivers a mid-stream `response.error` event followed by a
completion event, the code yields the `error` event without returning
(line 631) and then also yields `final_done`: the sequence is
`[final_start, error, final_done]`, which contains two terminal events and an
`error` that is followed by further events. -/
theorem C1_counterexample :
    (chatStream envMidStreamError "hello" none).events =
      [Event.final_start, Event.error streamingFailedMsg, Event.final_done [] none] ∧
    ((chatStream envMidStreamError "hello" none).events.filter isTerminal).length = 2 :=
  ⟨rfl, rfl⟩

/-- C1, amended: provided every streaming session the invocation opens is
well behaved — it delivers no `response.error` event and either reaches a
completion event or raises — the emitted event sequence of `chat_stream` is a
(possibly empty) run of non-terminal events followed by exactly one terminal
event among {final_done, final, error}, which is the last event. -/
theorem C1_terminal_amended (env : Env) (message : String) (prev : Option String)
    (hwb : ∀ n, (env.stream n).wellBehaved) :
    ∃ pre t, (chatStream env message prev).events = pre ++ [t] ∧
      (∀ e ∈ pre, isTerminal e = false) ∧ isTerminal t = true :=
  chatLoop_wellBehaved env message hwb 3 (initState message prev)

/-- C1, witness: the amended theorem applied to the one-turn environment whose
stream completes immediately. -/
theorem C1_witness :
    ∃ pre t, (chatStream envTrivial "hi" none).events = pre ++ [t] ∧
      (∀ e ∈ pre, isTerminal e = false) ∧ isTerminal t = true :=
  C1_terminal_amended envTrivial "hi" none (fun n => by
    constructor
    · intro m hm
      rw [show (envTrivial.stream n).events = [StreamEvent.responseCompleted none] from rfl,
        List.mem_singleton] at hm
      cases hm
    · exact Or.inl ⟨none, List.mem_singleton.mpr rfl⟩)

/-- C2, counterexample: the claim is false in two places.  A requested limit
of 0 is falsy in Python, so `int(limit or 20)` substitutes the default 20 —
the effective limit is 20, not the claimed lower clamp 1.  And an `alpha`
outside [0,1] is not clamped: it is passed through to the pydantic
`AgentSearchRequest`, whose `ge=0, le=1` constraint raises a validation
error, so the search dispatch raises (the loop then converts that to an
`{error: ...}` payload) instead of clamping. -/
theorem C2_counterexample :
    limitVal (some 0) = 20 ∧ ¬ limitVal (some 0) = 1 ∧
    toolSearchNotes argsBadAlpha {} SourceAcc.empty =
      Except.error "ValidationError: AgentSearchRequest.alpha out of range" :=
  ⟨rfl, by decide, rfl⟩

/-- C2, amended: a requested limit of 500 is clamped to 200 and the effective
limit always lies in [1,200] (a negative limit clamps to 1), but a limit of 0
is treated as absent and becomes the default 20; an `alpha` outside [0,1] is
rejected by request validation — the search tool call raises (surfacing as a
structured error result) — rather than being clamped. -/
theorem C2_clamping_amended (l : Int) (a : ℚ) (args : ToolArgs) (te : ToolExec)
    (acc : SourceAcc) :
    limitVal (some 500) = 200 ∧
    limitVal (some 0) = 20 ∧
    (1 ≤ limitVal (some l) ∧ limitVal (some l) ≤ 200) ∧
    (l < 0 → limitVal (some l) = 1) ∧
    (¬ (0 ≤ a ∧ a ≤ 1) →
      ∃ e, toolSearchNotes { args with alpha := some a } te acc = Except.error e) := by
  refine ⟨rfl, rfl, limitVal_bounds (some l), fun h => limitVal_neg h, fun h => ?_⟩
  have ha : alphaVal ({ args with alpha := some a } : ToolArgs).alpha = a := rfl
  obtain ⟨e, he⟩ := searchRequestOf_alpha_error (a := { args with alpha := some a })
    (by rw [ha]; exact h)
  exact ⟨e, toolSearchNotes_error_of_request he⟩

/-- C2, witness: the amended theorem applied at limit −5 and alpha 2. -/
theorem C2_witness :
    limitVal (some (-5)) = 1 ∧
    ∃ e, toolSearchNotes { ToolArgs.empty with alpha := some 2 } {} SourceAcc.empty =
      Except.error e :=
  ⟨(C2_clamping_amended (-5) 2 ToolArgs.empty {} SourceAcc.empty).2.2.2.1 (by decide),
    (C2_clamping_amended (-5) 2 ToolArgs.empty {} SourceAcc.empty).2.2.2.2 (by decide)⟩

/-- C3: within every tool-call batch, the emitted events are exactly, per
pending call in order, its `tool_call` event immediately followed by its
`tool_result` event — both carrying that call's id — so the two event counts
are equal (one of each per call) and each pair is adjacent. -/
theorem C3_batch_pairing (env : Env) (pending : List ToolCallItem) (st : AgentState) :
    (execToolCalls env pending st).1 =
      (pending.map fun tc =>
        [Event.tool_call (tc.name.getD "") tc.parsedArgs tc.call_id,
          Event.tool_result (tc.name.getD "") tc.call_id]).flatten ∧
    ((execToolCalls env pending st).1.countP Event.isToolCallEvent) = pending.length ∧
    ((execToolCalls env pending st).1.countP Event.isToolResultEvent) = pending.length := by
  refine ⟨execToolCalls_events env pending st, ?_, ?_⟩ <;>
  · rw [execToolCalls_events env pending st]
    induction pending with
    | nil => rfl
    | cons tc rest ih =>
      simp only [List.map_cons, List.flatten_cons, List.countP_append, ih,
        List.countP_cons, List.length_cons]
      simp [Event.isToolCallEvent, Event.isToolResultEvent, List.countP, List.countP.go]
      omega

/-- C4: the Source Id Set only grows across an invocation, and whenever the
invocation ends in a success event (`final_done` or `final`) the sources list
it carries is sorted, duplicate-free, and contains every note id returned by
every search collaborator call of the invocation (as recorded by the ghost
search log). -/
theorem C4_sources_invariant (env : Env) (message : String) (prev : Option String) :
    (∀ (fuel : Nat) (st : AgentState),
      st.acc.sources ⊆ (chatLoop env message fuel st).2.acc.sources) ∧
    (∀ s rid,
      (chatStream env message prev).events.getLast? = some (Event.final_done s rid) →
      s.Sorted (· ≤ ·) ∧ s.Nodup ∧
        ∀ ids ∈ (chatStream env message prev).finalState.acc.searchLog,
          ∀ i ∈ ids, i ∈ s) ∧
    (∀ r s rid,
      (chatStream env message prev).events.getLast? = some (Event.final r s rid) →
      s.Sorted (· ≤ ·) ∧ s.Nodup ∧
        ∀ ids ∈ (chatStream env message prev).finalState.acc.searchLog,
          ∀ i ∈ ids, i ∈ s) := by
  have hinv : AccInv (chatStream env message prev).finalState.acc :=
    (chatLoop_state env message 3 (initState message prev)).2.2.1
      ⟨List.nodup_nil, fun ids hids => absurd hids (List.not_mem_nil ids)⟩
  refine ⟨fun fuel st => (chatLoop_state env message fuel st).2.1, ?_, ?_⟩
  · intro s rid hlast
    have hs := (chatLoop_last env message 3 (initState message prev)).1 s rid hlast
    refine ⟨?_, ?_, ?_⟩
    · rw [hs]; exact sortList_sorted _
    · rw [hs]; exact sortList_nodup hinv.1
    · intro ids hids i hi
      rw [hs]
      exact mem_sortList.mpr (hinv.2 ids hids i hi)
  · intro r s rid hlast
    have hs := (chatLoop_last env message 3 (initState message prev)).2 r s rid hlast
    refine ⟨?_, ?_, ?_⟩
    · rw [hs]; exact sortList_sorted _
    · rw [hs]; exact sortList_nodup hinv.1
    · intro ids hids i hi
      rw [hs]
      exact mem_sortList.mpr (hinv.2 ids hids i hi)

/-- C4, witness: the theorem applied to the trivial environment, whose
invocation ends with `final_done` carrying the empty sources list. -/
theorem C4_witness :
    ([] : List String).Sorted (· ≤ ·) ∧ ([] : List String).Nodup ∧
      ∀ ids ∈ (chatStream envTrivial "hi" none).finalState.acc.searchLog,
        ∀ i ∈ ids, i ∈ ([] : List String) :=
  (C4_sources_invariant envTrivial "hi" none).2.1 [] none rfl

/-- C5: if the very first `responses.create` call raises, the emitted event
sequence is exactly one `error` event; only that one model call was logged, no
streaming session was opened and no tool was dispatched — no fallback of any
kind is attempted. -/
theorem C5_first_call_error (env : Env) (message : String) (prev : Option String)
    (e : String) (h : env.create 0 = Except.error e) :
    (chatStream env message prev).events = [Event.error failSafe] ∧
    (chatStream env message prev).finalState.createLog = [[InputItem.userMessage message]] ∧
    (chatStream env message prev).finalState.streamCount = 0 ∧
    (chatStream env message prev).finalState.toolCount = 0 := by
  have hstep : chatLoop env message 3 (initState message prev) =
      ([Event.error failSafe], loopLogState (initState message prev)) :=
    @chatLoop_create_error env message 2 (initState message prev) e h
  refine ⟨?_, ?_, ?_, ?_⟩
  · show (chatLoop env message 3 (initState message prev)).1 = [Event.error failSafe]
    rw [hstep]
  · show (chatLoop env message 3 (initState message prev)).2.createLog =
      [[InputItem.userMessage message]]
    rw [hstep]
    rfl
  · show (chatLoop env message 3 (initState message prev)).2.streamCount = 0
    rw [hstep]
    rfl
  · show (chatLoop env message 3 (initState message prev)).2.toolCount = 0
    rw [hstep]
    rfl

/-- C5, witness: the theorem applied to the environment whose every model call
raises. -/
theorem C5_witness :
    (chatStream envCreateRaises "hi" none).events = [Event.error failSafe] ∧
    (chatStream envCreateRaises "hi" none).finalState.createLog =
      [[InputItem.userMessage "hi"]] ∧
    (chatStream envCreateRaises "hi" none).finalState.streamCount = 0 ∧
    (chatStream envCreateRaises "hi" none).finalState.toolCount = 0 :=
  C5_first_call_error envCreateRaises "hi" none "APIConnectionError" rfl

/-- C6, counterexample: the claim that exceptions are caught *inside the
dispatcher* is false.  When the note-creation collaborator raises,
`_dispatch_tool` itself propagates the exception to its caller: in the model,
`dispatchTool` returns `Except.error "boom"` rather than a structured result. -/
theorem C6_counterexample :
    dispatchTool "create_note" ToolArgs.empty teCreateBoom SourceAcc.empty =
      Except.error "boom" :=
  rfl

/-- C6, amended: exceptions raised during dispatch propagate out of
`_dispatch_tool`, but the Turn Controller wraps every dispatch in a
`try/except` that converts any exception into the structured
`{error: <message>}` result (leaving the source accumulator unchanged), so
the loop itself never observes an exception and every tool call still yields
a structured result. -/
theorem C6_dispatch_amended (name : String) (args : ToolArgs) (te : ToolExec)
    (acc : SourceAcc) :
    (∃ p, dispatchTool name args te acc = Except.ok p ∧
      dispatchCaught name args te acc = p) ∨
    (∃ e, dispatchTool name args te acc = Except.error e ∧
      dispatchCaught name args te acc = (ToolResult.errorResult e, acc)) := by
  unfold dispatchCaught
  cases h : dispatchTool name args te acc with
  | ok p => exact Or.inl ⟨p, rfl, rfl⟩
  | error e => exact Or.inr ⟨e, rfl, rfl⟩

/-- C7, counterexample: the claim is false for the budget-exceeded path.
When the forced-finalize stream fails, no non-streamed fallback call is
attempted: the run below reaches the budget path with three logged model
calls, its stream fails to open, and the invocation ends with a `final`
event carrying the fixed apology while the create-call log still has exactly
3 entries (a fallback attempt would have made it 4) and no `error` event is
emitted. -/
theorem C7_counterexample :
    (chatStream envBudgetStreamFails "m" none).events.getLast? =
      some (Event.final failSafe [] none) ∧
    (chatStream envBudgetStreamFails "m" none).finalState.createLog.length = 3 ∧
    (chatStream envBudgetStreamFails "m" none).finalState.streamCount = 1 :=
  ⟨rfl, rfl, rfl⟩

/-- C7, amended: when the no-tool-calls finalizer's stream fails to open or
raises mid-stream, one non-streamed call is attempted and its result is
emitted as a single `final` carrying the current sorted sources and token,
with a terminal `error` only if that fallback call itself raises; the fixed
apology is substituted whenever the fallback yields no text.  On the
budget-exceeded path, however, a stream failure directly emits a `final` with
the fixed apology — no fallback call is attempted there (the state, including
the create-call log, is unchanged except for the stream counter) and that
path cannot produce an `error` event. -/
theorem C7_finalizer_fallback_amended (env : Env) (message : String) (st : AgentState)
    (e : String)
    (hnc : ∀ rid, StreamEvent.responseCompleted rid ∉ (env.stream st.streamCount).events)
    (hra : (env.stream st.streamCount).raisesAfter = some e) :
    (∃ evs, runStreamEvents true (env.stream st.streamCount).events =
        StreamOutcome.exhausted evs ∧
      ((∃ resp, env.create st.createLog.length = Except.ok resp ∧
          (finalizeStream env message st).1 = FinalizeResult.done (evs ++
            [Event.final (fallbackText resp) (sortList st.acc.sources)
              (pyOrOptStr resp.id st.prev)])) ∨
        (∃ e2, env.create st.createLog.length = Except.error e2 ∧
          (finalizeStream env message st).1 = FinalizeResult.done
            (evs ++ [Event.error fallbackFailMsg])))) ∧
    (∀ resp : ModelResponse, (resp.output_text = none ∨ resp.output_text = some "") →
      (∀ it ∈ resp.output, itemText it = "") → fallbackText resp = failSafe) ∧
    (∃ evs2, runStreamEvents false (env.stream st.streamCount).events =
        StreamOutcome.exhausted evs2 ∧
      budgetFinalize env st =
        ((Event.final_start :: evs2) ++
            [Event.final failSafe (sortList st.acc.sources) st.prev],
          { st with streamCount := st.streamCount + 1 })) := by
  obtain ⟨evs, hrun⟩ :=
    runStreamEvents_exhausted_of_not_mem true (env.stream st.streamCount).events hnc
  obtain ⟨evs2, hrun2⟩ :=
    runStreamEvents_exhausted_of_not_mem false (env.stream st.streamCount).events hnc
  refine ⟨⟨evs, hrun, ?_⟩, fun resp h1 h2 => fallbackText_apology h1 h2, ⟨evs2, hrun2, ?_⟩⟩
  · cases hc : env.create st.createLog.length with
    | ok resp =>
      refine Or.inl ⟨resp, rfl, ?_⟩
      unfold finalizeStream
      simp only [hrun, hra, hc]
    | error e2 =>
      refine Or.inr ⟨e2, rfl, ?_⟩
      unfold finalizeStream
      simp only [hrun, hra, hc]
  · unfold budgetFinalize
    simp only [hrun2, hra]

/-- C7, witness: the amended theorem applied at the initial state of the
environment whose streams fail to open, yielding the concrete budget-path
behaviour. -/
theorem C7_witness :
    ∃ evs2, runStreamEvents false (envBudgetStreamFails.stream 0).events =
        StreamOutcome.exhausted evs2 ∧
      budgetFinalize envBudgetStreamFails (initState "m" none) =
        ((Event.final_start :: evs2) ++
            [Event.final failSafe (sortList (initState "m" none).acc.sources)
              (initState "m" none).prev],
          { initState "m" none with streamCount := (initState "m" none).streamCount + 1 }) :=
  (C7_finalizer_fallback_amended envBudgetStreamFails "m" (initState "m" none)
    "stream open failed" (fun _ hm => absurd hm (List.not_mem_nil _)) rfl).2.2

/-- C8, counterexample: the claim that the total number of model round-trips
per invocation is bounded by 3 is false once the finalizer's own model
interactions are counted.  In a run where all three loop turns request tool
calls and the budget-path stream then completes, the invocation makes 3
non-streaming calls plus 1 streaming session: 4 model interactions. -/
theorem C8_counterexample :
    (chatStream envThreeToolTurns "m" none).modelRoundTrips = 4 ∧
    3 < (chatStream envThreeToolTurns "m" none).modelRoundTrips :=
  ⟨rfl, by decide⟩

/-- C8, amended: the tool-calling loop performs at most 3 of its
`responses.create` round-trips before the forced-finalize path, and the loop
cannot iterate indefinitely; counting every model interaction (loop calls,
streaming sessions, and non-streamed fallback calls) the total per invocation
is bounded by 7. -/
theorem C8_bound_amended (env : Env) (message : String) (prev : Option String) :
    (chatStream env message prev).finalState.loopCreates ≤ 3 ∧
    (chatStream env message prev).modelRoundTrips ≤ 7 := by
  have h := chatLoop_state env message 3 (initState message prev)
  constructor
  · exact le_trans h.2.2.2.1 (le_of_eq rfl)
  · exact le_trans h.2.2.2.2 (le_of_eq rfl)

/-- C9: dispatching any unregistered tool name returns the structured
`{error: "Unknown tool: <name>"}` result without raising and without touching
the source accumulator; the batch executor feeds exactly that payload into
the next turn's input items; and in a concrete run the next model call's
input is the user message followed by that error payload. -/
theorem C9_unknown_tool (name : String) (h : name ∉ knownToolNames) (args : ToolArgs)
    (te : ToolExec) (acc : SourceAcc) :
    dispatchTool name args te acc =
      Except.ok (ToolResult.errorResult ("Unknown tool: " ++ name), acc) ∧
    (∀ (env : Env) (tc : ToolCallItem) (rest : List ToolCallItem) (st : AgentState),
      tc.name = some name →
      InputItem.functionCallOutput tc.call_id
          (ToolResult.errorResult ("Unknown tool: " ++ name)) ∈
        (execToolCalls env (tc :: rest) st).2.nextInputs) ∧
    (chatStream envUnknownToolOnce "m" none).finalState.createLog =
      [[InputItem.userMessage "m"],
        [InputItem.functionCallOutput (some "call_1")
          (ToolResult.errorResult "Unknown tool: foo")]] := by
  refine ⟨dispatchTool_unknown h args te acc, ?_, rfl⟩
  intro env tc rest st hname
  simp only [execToolCalls]
  have hnm : tc.name.getD "" = name := by rw [hname]; rfl
  have hd : dispatchCaught (tc.name.getD "") tc.parsedArgs (env.toolExec st.toolCount)
      st.acc = (ToolResult.errorResult ("Unknown tool: " ++ name), st.acc) := by
    rw [hnm]
    unfold dispatchCaught
    rw [dispatchTool_unknown h tc.parsedArgs (env.toolExec st.toolCount) st.acc]
  refine execToolCalls_nextInputs_mono env rest _ _ ?_
  simp [hd]

/-- C9, witness: the theorem applied at the unregistered name `"foo"`. -/
theorem C9_witness :
    dispatchTool "foo" ToolArgs.empty {} SourceAcc.empty =
      Except.ok (ToolResult.errorResult "Unknown tool: foo", SourceAcc.empty) :=
  (C9_unknown_tool "foo" (by decide) ToolArgs.empty {} SourceAcc.empty).1

/-- C10: absent numeric and boolean search parameters take fixed defaults
before the search collaborator is called: an absent or zero limit becomes 20,
an absent alpha becomes 0.5, an absent match_all_tags becomes false, and the
constructed `AgentSearchRequest` carries exactly these values. -/
theorem C10_search_defaults (a : ToolArgs) (hl : a.limit = none ∨ a.limit = some 0)
    (ha : a.alpha = none) (hm : a.match_all_tags = none) :
    limitVal a.limit = 20 ∧ alphaVal a.alpha = 1 / 2 ∧
    matchAllVal a.match_all_tags = false ∧
    ∀ r, searchRequestOf a = Except.ok r →
      r.limit = 20 ∧ r.alpha = 1 / 2 ∧ r.match_all_tags = false := by
  have hl20 : limitVal a.limit = 20 := by
    cases hl with
    | inl hq => rw [hq]; rfl
    | inr hq => rw [hq]; rfl
  have ha12 : alphaVal a.alpha = 1 / 2 := by rw [ha]; rfl
  have hmf : matchAllVal a.match_all_tags = false := by rw [hm]; rfl
  refine ⟨hl20, ha12, hmf, ?_⟩
  intro r hr
  unfold searchRequestOf at hr
  cases hn : noteTypeValOpt a.note_type with
  | error e2 =>
    rw [hn] at hr
    simp [Bind.bind, Except.bind] at hr
  | ok nt =>
    rw [hn] at hr
    simp only [Bind.bind, Except.bind] at hr
    unfold mkAgentSearchRequest at hr
    have haok : ¬ ¬ (0 ≤ alphaVal a.alpha ∧ alphaVal a.alpha ≤ 1) :=
      not_not_intro (by rw [ha12]; norm_num)
    rw [if_neg (not_not_intro (limitVal_bounds a.limit)), if_neg haok,
      Except.ok.injEq] at hr
    rw [← hr]
    exact ⟨hl20, ha12, hmf⟩

/-- C10, witness: the theorem applied at the empty argument map, for which the
request construction succeeds. -/
theorem C10_witness :
    limitVal ToolArgs.empty.limit = 20 ∧ alphaVal ToolArgs.empty.alpha = 1 / 2 ∧
    matchAllVal ToolArgs.empty.match_all_tags = false ∧
    ∀ r, searchRequestOf ToolArgs.empty = Except.ok r →
      r.limit = 20 ∧ r.alpha = 1 / 2 ∧ r.match_all_tags = false :=
  C10_search_defaults ToolArgs.empty (Or.inl rfl) rfl rfl

end NotesAgent
